import Mathlib

/-!
Shallow embedding of the patch database from `src/patches.cpp` /
`src/patches.hpp` (namespace `patches2d`).

Machine integers (`int`) are modelled as `ℤ` (block sizes and guard counts,
which are non-negative in every use, as `ℕ`); `double` values are modelled as
`ℚ`; C++ exceptions are modelled as `Except Err`.  The 3-d array backend
(`nd::array<double, 3>`, the external `juce_ndarray` collaborator) is modelled
from the spec's interface contract (section 6.1): axis-aligned half-open and
strided slicing, assignment into slices, elementwise arithmetic with scalar
broadcast, and deep copies; shape-incompatible assignments and arithmetic are
errors, and out-of-range slices are errors.
-/

namespace Patches2d

/-- Error conditions; C++ raises exceptions (`std::out_of_range` from
`std::map::at`, `std::invalid_argument` from explicit throws, and array-level
failures in the backend).  The constructors follow the spec's error kinds. -/
inductive Err where
  | unknownField
  | patchMissing
  | shapeMismatch
  | unsupportedLocation
  | boundaryUnresolved
  | badQuadrant
  | outOfBounds
  | parseError
deriving DecidableEq, Repr

/-- The `Field` enumeration of `patches.hpp` (juce module header, 9 fields). -/
inductive Field where
  | cell_volume
  | cell_coords
  | vert_coords
  | face_area_i
  | face_area_j
  | face_velocity_i
  | face_velocity_j
  | conserved
  | primitive
deriving DecidableEq, Repr

/-- The `MeshLocation` enumeration of `patches.hpp`. -/
inductive MeshLocation where
  | vert
  | cell
  | face_i
  | face_j
deriving DecidableEq, Repr

/-- The `PatchBoundary` enumeration of `patches.hpp`. -/
inductive PatchBoundary where
  | il
  | ir
  | jl
  | jr
deriving DecidableEq, Repr

/-- `FieldDescriptor` of `patches.hpp`: a field count and a mesh location. -/
structure FieldDescriptor where
  num_fields : ℕ
  location : MeshLocation
deriving DecidableEq, Repr

/-- `Database::Index = std::tuple<int, int, int, Field>` (i, j, level, which). -/
structure Index where
  i : ℤ
  j : ℤ
  level : ℤ
  field : Field
deriving DecidableEq, Repr

/-- Modelled from the spec: a 3-d array of doubles (`nd::array<double, 3>`),
kept as a shape together with a total value function; only values at indices
inside the shape are meaningful. -/
structure Arr where
  ni : ℕ
  nj : ℕ
  nk : ℕ
  data : ℕ → ℕ → ℕ → ℚ

/-- Shape of an array as a triple, mirroring `nd::array::shape()`. -/
def Arr.shape (a : Arr) : ℕ × ℕ × ℕ := (a.ni, a.nj, a.nk)

/-- Modelled from the spec: an axis-aligned slice `start|stop|step` of one
axis (half-open, strided; the source uses steps 1 and 2). -/
structure Slice where
  start : ℤ
  stop : ℤ
  step : ℕ

/-- Validity of a slice against an axis extent: non-negative start, ordered
half-open bounds inside the extent, positive step. -/
def Slice.ok (sl : Slice) (n : ℕ) : Prop :=
  0 ≤ sl.start ∧ sl.start ≤ sl.stop ∧ sl.stop ≤ (n : ℤ) ∧ 1 ≤ sl.step

instance (sl : Slice) (n : ℕ) : Decidable (Slice.ok sl n) := by
  unfold Slice.ok
  exact inferInstance

/-- Number of indices selected by a slice. -/
def Slice.len (sl : Slice) : ℕ :=
  ((sl.stop - sl.start).toNat + sl.step - 1) / sl.step

/-- Membership of an absolute axis position in a slice. -/
def Slice.mem (sl : Slice) (x : ℕ) : Prop :=
  sl.start ≤ (x : ℤ) ∧ (x : ℤ) < sl.stop ∧ ((x : ℤ) - sl.start) % (sl.step : ℤ) = 0

instance (sl : Slice) (x : ℕ) : Decidable (Slice.mem sl x) := by
  unfold Slice.mem
  exact inferInstance

/-- Position within the slice of an absolute axis position. -/
def Slice.src (sl : Slice) (x : ℕ) : ℕ :=
  ((x : ℤ) - sl.start).toNat / sl.step

/-- The array produced by a successful slice read. -/
def selArr (a : Arr) (si sj : Slice) : Arr :=
  ⟨si.len, sj.len, a.nk,
    fun x y k => a.data (si.start.toNat + si.step * x) (sj.start.toNat + sj.step * y) k⟩

/-- Modelled from the spec: slicing (`a.select(...)` read side).  Fails when a
slice is out of range for the array. -/
def Arr.select (a : Arr) (si sj : Slice) : Except Err Arr :=
  if si.ok a.ni ∧ sj.ok a.nj then .ok (selArr a si sj)
  else .error .outOfBounds

/-- The array produced by a successful slice assignment. -/
def asgArr (d : Arr) (si sj : Slice) (s : Arr) : Arr :=
  ⟨d.ni, d.nj, d.nk,
    fun x y k =>
      if si.mem x ∧ sj.mem y then s.data (si.src x) (sj.src y) k
      else d.data x y k⟩

/-- Modelled from the spec: assignment into a slice
(`dst.select(...) = src`).  Fails when the slice is out of range or the source
shape does not match the selected region. -/
def Arr.assign (d : Arr) (si sj : Slice) (s : Arr) : Except Err Arr :=
  if si.ok d.ni ∧ sj.ok d.nj then
    if s.ni = si.len ∧ s.nj = sj.len ∧ s.nk = d.nk then .ok (asgArr d si sj s)
    else .error .shapeMismatch
  else .error .outOfBounds

/-- Modelled from the spec: whole-array assignment (`a = b` writing through
the shared buffer of `a`); requires matching shapes. -/
def Arr.assignFull (d s : Arr) : Except Err Arr :=
  if s.ni = d.ni ∧ s.nj = d.nj ∧ s.nk = d.nk then
    .ok ⟨d.ni, d.nj, d.nk, s.data⟩
  else .error .shapeMismatch

/-- The array produced by a successful elementwise addition. -/
def addArr (a b : Arr) : Arr :=
  ⟨a.ni, a.nj, a.nk, fun x y k => a.data x y k + b.data x y k⟩

/-- Modelled from the spec: elementwise addition; requires matching shapes. -/
def Arr.add (a b : Arr) : Except Err Arr :=
  if b.ni = a.ni ∧ b.nj = a.nj ∧ b.nk = a.nk then .ok (addArr a b)
  else .error .shapeMismatch

/-- Modelled from the spec: elementwise multiplication by a scalar. -/
def Arr.smul (c : ℚ) (a : Arr) : Arr :=
  ⟨a.ni, a.nj, a.nk, fun x y k => a.data x y k * c⟩

/-- Elementwise equality of two arrays: equal shapes and equal values at every
in-range position. -/
def Arr.eqv (a b : Arr) : Prop :=
  a.ni = b.ni ∧ a.nj = b.nj ∧ a.nk = b.nk ∧
  ∀ x < a.ni, ∀ y < a.nj, ∀ k < a.nk, a.data x y k = b.data x y k

instance (a b : Arr) : Decidable (Arr.eqv a b) := by
  unfold Arr.eqv
  exact inferInstance

/-- Default-constructed (`nd::array<double, 3>()`) empty array. -/
def emptyArr : Arr := ⟨0, 0, 0, fun _ _ _ => 0⟩

/-- Constant array of a given shape. -/
def constArr (ni nj nk : ℕ) (v : ℚ) : Arr := ⟨ni, nj, nk, fun _ _ _ => v⟩

/-- Is an `Except` value a success? -/
def okB {α : Type} : Except Err α → Bool
  | .ok _ => true
  | .error _ => false

/-- The patch database (`patches2d::Database`): block size, header, ordered
patch store (kept as an association list keyed by `Index`), and the optional
boundary-value callback. -/
structure Database where
  ni : ℕ
  nj : ℕ
  header : Field → Option FieldDescriptor
  patches : List (Index × Arr)
  boundary_value : Option (Index → PatchBoundary → ℕ → Arr → Arr)

/-- Lookup in the patch store (`patches.count` / `patches.at`). -/
def pl : List (Index × Arr) → Index → Option Arr
  | [], _ => none
  | e :: rest, idx => if e.1 = idx then some e.2 else pl rest idx

/-- Replace the entry at a key (writing through the stored array's buffer);
appends when the key is absent. -/
def setp : List (Index × Arr) → Index → Arr → List (Index × Arr)
  | [], idx, a => [(idx, a)]
  | e :: rest, idx, a => if e.1 = idx then (idx, a) :: rest else e :: setp rest idx a

/-- `Database::num_fields` (a `header.at` lookup). -/
def Database.num_fields (db : Database) (idx : Index) : Except Err ℕ :=
  match db.header idx.field with
  | some fd => .ok fd.num_fields
  | none => .error .unknownField

/-- `Database::location` (a `header.at` lookup). -/
def Database.location (db : Database) (idx : Index) : Except Err MeshLocation :=
  match db.header idx.field with
  | some fd => .ok fd.location
  | none => .error .unknownField

/-- `Database::expected_shape`: the location-dependent shape table. -/
def Database.expected_shape (db : Database) (idx : Index) : Except Err (ℕ × ℕ × ℕ) :=
  match db.header idx.field with
  | none => .error .unknownField
  | some fd =>
    match fd.location with
    | .cell => .ok (db.ni, db.nj, fd.num_fields)
    | .vert => .ok (db.ni + 1, db.nj + 1, fd.num_fields)
    | .face_i => .ok (db.ni + 1, db.nj, fd.num_fields)
    | .face_j => .ok (db.ni, db.nj + 1, fd.num_fields)

/-- `Database::coarsen`: C++ `/= 2` on `int`, i.e. division truncated toward
zero (`Int.tdiv`), and `level - 1`. -/
def coarsen (idx : Index) : Index :=
  ⟨idx.i.tdiv 2, idx.j.tdiv 2, idx.level - 1, idx.field⟩

/-- `Database::refine`: the four child indices, in source order
`(0,0), (0,1), (1,0), (1,1)`. -/
def refine (idx : Index) : List Index :=
  [⟨idx.i * 2, idx.j * 2, idx.level + 1, idx.field⟩,
   ⟨idx.i * 2, idx.j * 2 + 1, idx.level + 1, idx.field⟩,
   ⟨idx.i * 2 + 1, idx.j * 2, idx.level + 1, idx.field⟩,
   ⟨idx.i * 2 + 1, idx.j * 2 + 1, idx.level + 1, idx.field⟩]

/-- `Database::quadrant`: one of the four `(ni/2, nj/2)`-sized corners of a
coarse array, selected by `(I, J)`; non-binary selectors throw. -/
def Database.quadrant (db : Database) (A : Arr) (I J : ℤ) : Except Err Arr :=
  if I = 0 ∧ J = 0 then A.select ⟨0, (db.ni / 2 : ℕ), 1⟩ ⟨0, (db.nj / 2 : ℕ), 1⟩
  else if I = 0 ∧ J = 1 then A.select ⟨0, (db.ni / 2 : ℕ), 1⟩ ⟨(db.nj / 2 : ℕ), (db.nj : ℕ), 1⟩
  else if I = 1 ∧ J = 0 then A.select ⟨(db.ni / 2 : ℕ), (db.ni : ℕ), 1⟩ ⟨0, (db.nj / 2 : ℕ), 1⟩
  else if I = 1 ∧ J = 1 then A.select ⟨(db.ni / 2 : ℕ), (db.ni : ℕ), 1⟩ ⟨(db.nj / 2 : ℕ), (db.nj : ℕ), 1⟩
  else .error .badQuadrant

/-- `Database::prolongation`: piecewise-constant injection, written in the
source as four strided-slice assignments of the coarse array. -/
def Database.prolongation (db : Database) (A : Arr) : Except Err Arr := do
  let r1 ← (⟨db.ni, db.nj, A.nk, fun _ _ _ => 0⟩ : Arr).assign ⟨0, db.ni, 2⟩ ⟨0, db.nj, 2⟩ A
  let r2 ← r1.assign ⟨0, db.ni, 2⟩ ⟨1, db.nj, 2⟩ A
  let r3 ← r2.assign ⟨1, db.ni, 2⟩ ⟨0, db.nj, 2⟩ A
  let r4 ← r3.assign ⟨1, db.ni, 2⟩ ⟨1, db.nj, 2⟩ A
  return r4

/-- `Database::restriction`: average of the four strided-slice phases,
`(B0 + B1 + B2 + B3) * 0.25`. -/
def Database.restriction (A : Arr) : Except Err Arr := do
  let b0 ← A.select ⟨0, A.ni, 2⟩ ⟨0, A.nj, 2⟩
  let b1 ← A.select ⟨0, A.ni, 2⟩ ⟨1, A.nj, 2⟩
  let b2 ← A.select ⟨1, A.ni, 2⟩ ⟨0, A.nj, 2⟩
  let b3 ← A.select ⟨1, A.ni, 2⟩ ⟨1, A.nj, 2⟩
  let s1 ← b0.add b1
  let s2 ← s1.add b2
  let s3 ← s2.add b3
  return Arr.smul (1/4) s3

/-- `Database::tile`: lay four child patches out as a `(2ni, 2nj)` array in
the order produced by `refine`. -/
def Database.tile (db : Database) (idxs : List Index) : Except Err Arr :=
  match idxs with
  | [i0, i1, i2, i3] => do
    let k ← db.num_fields i0
    let r0 : Arr := ⟨db.ni * 2, db.nj * 2, k, fun _ _ _ => 0⟩
    let p0 ← (pl db.patches i0).elim (Except.error .patchMissing) .ok
    let p1 ← (pl db.patches i1).elim (Except.error .patchMissing) .ok
    let p2 ← (pl db.patches i2).elim (Except.error .patchMissing) .ok
    let p3 ← (pl db.patches i3).elim (Except.error .patchMissing) .ok
    let r1 ← r0.assign ⟨0, db.ni, 1⟩ ⟨0, db.nj, 1⟩ p0
    let r2 ← r1.assign ⟨0, db.ni, 1⟩ ⟨db.nj, db.nj * 2, 1⟩ p1
    let r3 ← r2.assign ⟨db.ni, db.ni * 2, 1⟩ ⟨0, db.nj, 1⟩ p2
    let r4 ← r3.assign ⟨db.ni, db.ni * 2, 1⟩ ⟨db.nj, db.nj * 2, 1⟩ p3
    return r4
  | _ => .error .patchMissing

/-- Do all the given indices have stored patches (`contains_all`)? -/
def Database.contains_all (db : Database) (idxs : List Index) : Bool :=
  idxs.all fun idx => (pl db.patches idx).isSome

/-- `Database::locate`: exact hit, else prolongation of the truncating-
remainder quadrant of the stored coarse parent, else restriction of the tile
of the four stored children, else the empty sentinel (modelled as `none`). -/
def Database.locate (db : Database) (idx : Index) : Except Err (Option Arr) :=
  match pl db.patches idx with
  | some a => .ok (some a)
  | none =>
    match pl db.patches (coarsen idx) with
    | some parent => do
      let q ← db.quadrant parent (idx.i.tmod 2) (idx.j.tmod 2)
      let p ← db.prolongation q
      return some p
    | none =>
      if db.contains_all (refine idx) then do
        let t ← db.tile (refine idx)
        let r ← Database.restriction t
        return some r
      else .ok none

/-- `Database::insert`, `patches[index].become(check_shape(data, index).copy())`.
Under the C++17 sequencing rules the map entry `patches[index]` is
default-constructed before the argument `check_shape(...)` is evaluated (under
C++14 the order between the two is unspecified; the model takes the C++17
order).  The result is the database after the call together with the raised
error, if any. -/
def Database.insert (db : Database) (idx : Index) (data : Arr) : Database × Option Err :=
  let ps1 := if (pl db.patches idx).isSome then db.patches else db.patches ++ [(idx, emptyArr)]
  match db.expected_shape idx with
  | .error e => ({ db with patches := ps1 }, some e)
  | .ok sh =>
    if data.shape = sh then ({ db with patches := setp ps1 idx data }, none)
    else ({ db with patches := ps1 }, some .shapeMismatch)

/-- `Database::commit`: look the target up (`patches.at`, so `PatchMissing`
when absent); with `rk_factor = 0` assign `data` through the target's buffer,
otherwise assign `data * (1 - rk_factor) + target * rk_factor`. -/
def Database.commit (db : Database) (idx : Index) (data : Arr) (rk : ℚ) : Except Err Database :=
  match pl db.patches idx with
  | none => .error .patchMissing
  | some target =>
    if rk = 0 then do
      let a ← target.assignFull data
      return { db with patches := setp db.patches idx a }
    else do
      let s ← (data.smul (1 - rk)).add (target.smul rk)
      let a ← target.assignFull s
      return { db with patches := setp db.patches idx a }

/-- One guard-edge block of `Database::fetch`: when the depth is positive,
locate the neighbor; slice it when found, otherwise invoke the boundary-value
callback (an exception when none is registered); then assign the slab into the
result. -/
def Database.edge (db : Database) (r center : Arr) (idx nIdx : Index) (eg : PatchBoundary)
    (depth : ℕ) (ssel : Arr → Slice × Slice) (di dj : Slice) : Except Err Arr :=
  if 0 < depth then
    match db.locate nIdx with
    | .error e => .error e
    | .ok (some nb) =>
      match nb.select (ssel nb).1 (ssel nb).2 with
      | .error e => .error e
      | .ok bv => r.assign di dj bv
    | .ok none =>
      match db.boundary_value with
      | some bf => r.assign di dj (bf idx eg depth center)
      | none => .error .boundaryUnresolved
  else .ok r

/-- `Database::fetch(index, ngil, ngir, ngjl, ngjr)`: require a cell-located
field, allocate the padded result, copy the stored central patch into the
interior, then fill the four guard slabs from located neighbors or the
boundary-value callback.  The source's destination bounds `mi - ngir` and
`mj - ngjr` (with `mi = ni + ngil + ngir`, `mj = nj + ngjl + ngjr`) are
written as the identical `ni + ngil` and `nj + ngjl`. -/
def Database.fetch (db : Database) (idx : Index) (ngil ngir ngjl ngjr : ℕ) : Except Err Arr :=
  match db.header idx.field with
  | none => .error .unknownField
  | some fd =>
    if fd.location ≠ MeshLocation.cell then .error .unsupportedLocation
    else
      match pl db.patches idx with
      | none => .error .patchMissing
      | some center => do
        let r1 ← (⟨db.ni + ngil + ngir, db.nj + ngjl + ngjr, fd.num_fields,
            fun _ _ _ => 0⟩ : Arr).assign
          ⟨ngil, ngil + db.ni, 1⟩ ⟨ngjl, ngjl + db.nj, 1⟩ center
        let r2 ← db.edge r1 center idx ⟨idx.i - 1, idx.j, idx.level, idx.field⟩ .il ngil
          (fun nb => (⟨(db.ni : ℤ) - ngil, db.ni, 1⟩, ⟨0, nb.nj, 1⟩))
          ⟨0, ngil, 1⟩ ⟨ngjl, ngjl + db.nj, 1⟩
        let r3 ← db.edge r2 center idx ⟨idx.i + 1, idx.j, idx.level, idx.field⟩ .ir ngir
          (fun nb => (⟨0, ngir, 1⟩, ⟨0, nb.nj, 1⟩))
          ⟨(db.ni : ℤ) + ngil, db.ni + ngil + ngir, 1⟩ ⟨ngjl, ngjl + db.nj, 1⟩
        let r4 ← db.edge r3 center idx ⟨idx.i, idx.j - 1, idx.level, idx.field⟩ .jl ngjl
          (fun nb => (⟨0, nb.ni, 1⟩, ⟨(db.nj : ℤ) - ngjl, db.nj, 1⟩))
          ⟨ngil, ngil + db.ni, 1⟩ ⟨0, ngjl, 1⟩
        let r5 ← db.edge r4 center idx ⟨idx.i, idx.j + 1, idx.level, idx.field⟩ .jr ngjr
          (fun nb => (⟨0, nb.ni, 1⟩, ⟨0, ngjr, 1⟩))
          ⟨ngil, ngil + db.ni, 1⟩ ⟨(db.nj : ℤ) + ngjl, db.nj + ngjl + ngjr, 1⟩
        return r5

/-- `Database::fetch(index, guard)`: equal padding on all four edges. -/
def Database.fetch1 (db : Database) (idx : Index) (guard : ℕ) : Except Err Arr :=
  db.fetch idx guard guard guard guard

/-- `Database::assemble`: stitch the half-open rectangle of patches at one
level into one array.  Faithful to the source, the destination slab of patch
`(i, j)` starts at `(i * ni, j * nj)` (not at `((i - i0) * ni, (j - j0) * nj)`). -/
def Database.assemble (db : Database) (i0 i1 j0 j1 level : ℤ) (f : Field) : Except Err Arr :=
  match db.header f with
  | none => .error .unknownField
  | some fd =>
    let ext : ℤ × ℤ :=
      match fd.location with
      | .cell => ((i1 - i0) * db.ni, (j1 - j0) * db.nj)
      | .vert => ((i1 - i0) * db.ni + 1, (j1 - j0) * db.nj + 1)
      | .face_i => ((i1 - i0) * db.ni + 1, (j1 - j0) * db.nj)
      | .face_j => ((i1 - i0) * db.ni, (j1 - j0) * db.nj + 1)
    let r0 : Arr := ⟨ext.1.toNat, ext.2.toNat, fd.num_fields, fun _ _ _ => 0⟩
    let iList := (List.range (i1 - i0).toNat).map fun a => i0 + a
    let jList := (List.range (j1 - j0).toNat).map fun b => j0 + b
    iList.foldlM (fun acc i =>
      jList.foldlM (fun acc2 j =>
        let dd : ℤ × ℤ :=
          match fd.location with
          | .cell => (0, 0)
          | .vert => (if i = i1 - 1 then 1 else 0, if j = j1 - 1 then 1 else 0)
          | .face_i => (if i = i1 - 1 then 1 else 0, 0)
          | .face_j => (0, if j = j1 - 1 then 1 else 0)
        match pl db.patches ⟨i, j, level, f⟩ with
        | none => .error .patchMissing
        | some patch => do
          let src ← patch.select ⟨0, (db.ni : ℤ) + dd.1, 1⟩ ⟨0, (db.nj : ℤ) + dd.2, 1⟩
          acc2.assign ⟨i * db.ni, (i + 1) * db.ni + dd.1, 1⟩ ⟨j * db.nj, (j + 1) * db.nj + dd.2, 1⟩ src)
        acc)
      r0

/-- The blended value `data * (1 - r) + old * r` of the spec's commit rule
(section 4.7), with the shape of the stored array. -/
def blendArr (data old : Arr) (r : ℚ) : Arr :=
  ⟨old.ni, old.nj, old.nk, fun x y k => data.data x y k * (1 - r) + old.data x y k * r⟩

/-- Character of a single decimal digit (`'0' + n` for `n < 10`). -/
def digChar (n : ℕ) : Char := Char.ofNat (48 + n)

/-- Fuel-driven decimal digits of a natural number (most significant first),
following `std::to_string`. -/
def natCharsF : ℕ → ℕ → List Char
  | 0, _ => []
  | fuel + 1, n => if n < 10 then [digChar n] else natCharsF fuel (n / 10) ++ [digChar (n % 10)]

/-- Decimal digits of a natural number. -/
def natChars (n : ℕ) : List Char := natCharsF (n + 1) n

/-- `std::to_string` of an `int`: optional minus sign, then decimal digits. -/
def intChars (z : ℤ) : List Char :=
  if z < 0 then '-' :: natChars z.natAbs else natChars z.toNat

/-- `patches2d::to_string(Field)`. -/
def fieldChars (f : Field) : List Char :=
  (match f with
   | .cell_volume => "cell_volume"
   | .cell_coords => "cell_coords"
   | .vert_coords => "vert_coords"
   | .face_area_i => "face_area_i"
   | .face_area_j => "face_area_j"
   | .face_velocity_i => "face_velocity_i"
   | .face_velocity_j => "face_velocity_j"
   | .conserved => "conserved"
   | .primitive => "primitive").toList

/-- `patches2d::to_string(Database::Index)`: the canonical encoding
`<level>.<i>-<j>/<field>`. -/
def indexChars (idx : Index) : List Char :=
  intChars idx.level ++ '.' :: (intChars idx.i ++ '-' :: (intChars idx.j ++ '/' :: fieldChars idx.field))

/-- Position of the first occurrence of a character (`std::string::find`);
yields the length when the character is absent. -/
def posOf (c : Char) : List Char → ℕ
  | [] => 0
  | x :: xs => if x = c then 0 else posOf c xs + 1

/-- Value of the maximal leading run of decimal digits, folded onto an
accumulator (the digit-consuming loop of `std::stoi`). -/
def digitsPrefixVal (acc : ℕ) : List Char → ℕ
  | [] => acc
  | c :: cs => if c.isDigit then digitsPrefixVal (acc * 10 + (c.toNat - 48)) cs else acc

/-- `std::stoi` after the optional sign: requires at least one digit. -/
def stoiNat : List Char → Except Err ℕ
  | [] => .error .parseError
  | c :: cs => if c.isDigit then .ok (digitsPrefixVal 0 (c :: cs)) else .error .parseError

/-- `std::stoi`: optional `'-'` or `'+'` sign, then a non-empty digit run;
parsing stops at the first non-digit. -/
def stoiL : List Char → Except Err ℤ
  | [] => .error .parseError
  | c :: cs =>
    if c = '-' then
      match stoiNat cs with
      | .ok n => .ok (-(n : ℤ))
      | .error e => .error e
    else if c = '+' then
      match stoiNat cs with
      | .ok n => .ok ((n : ℤ))
      | .error e => .error e
    else
      match stoiNat (c :: cs) with
      | .ok n => .ok ((n : ℤ))
      | .error e => .error e

/-- `patches2d::parse_field`. -/
def parse_field (s : List Char) : Except Err Field :=
  if s = "cell_volume".toList then .ok .cell_volume
  else if s = "cell_coords".toList then .ok .cell_coords
  else if s = "vert_coords".toList then .ok .vert_coords
  else if s = "face_area_i".toList then .ok .face_area_i
  else if s = "face_area_j".toList then .ok .face_area_j
  else if s = "face_velocity_i".toList then .ok .face_velocity_i
  else if s = "face_velocity_j".toList then .ok .face_velocity_j
  else if s = "conserved".toList then .ok .conserved
  else if s = "primitive".toList then .ok .primitive
  else .error .parseError

/-- `patches2d::parse_index`: split on the first `'.'`, `'-'`, `'/'`, parse
the three integer substrings with `stoi` (`substr(pos, len)` takes `len`
characters starting at `pos`), and parse the field name after the slash. -/
def parse_index (s : List Char) : Except Err Index := do
  let dot := posOf '.' s
  let dash := posOf '-' s
  let slash := posOf '/' s
  let lvl ← stoiL (s.take dot)
  let i ← stoiL ((s.drop (dot + 1)).take dash)
  let j ← stoiL ((s.drop (dash + 1)).take slash)
  let f ← parse_field (s.drop (slash + 1))
  return ⟨i, j, lvl, f⟩

/-! Concrete instances used by witnesses and counterexamples: block size
`ni = nj = 2`, a one-component cell field `conserved` and a two-component
vertex field `vert_coords` (scenario headers of spec section 8). -/

/-- Header with `conserved ↦ (1, cell)` and `vert_coords ↦ (2, vert)`. -/
def hdrW : Field → Option FieldDescriptor
  | .conserved => some ⟨1, .cell⟩
  | .vert_coords => some ⟨2, .vert⟩
  | _ => none

/-- A `2 × 2 × 1` cell patch with values `10 x + y`. -/
def arrSq : Arr := ⟨2, 2, 1, fun x y _ => 10 * x + y⟩

/-- Database holding only `arrSq` at `(0, 0, 0, conserved)`. -/
def dbOne : Database := ⟨2, 2, hdrW, [(⟨0, 0, 0, .conserved⟩, arrSq)], none⟩

/-- The result of a guardless fetch on `dbOne`. -/
def fetchZeroRes : Arr :=
  match dbOne.fetch ⟨0, 0, 0, .conserved⟩ 0 0 0 0 with
  | .ok a => a
  | .error _ => emptyArr

/-- Database with a stored center and all four same-level neighbors. -/
def dbNbr : Database :=
  ⟨2, 2, hdrW,
    [(⟨0, 0, 0, .conserved⟩, constArr 2 2 1 0),
     (⟨-1, 0, 0, .conserved⟩, constArr 2 2 1 1),
     (⟨1, 0, 0, .conserved⟩, constArr 2 2 1 2),
     (⟨0, -1, 0, .conserved⟩, constArr 2 2 1 3),
     (⟨0, 1, 0, .conserved⟩, constArr 2 2 1 4)], none⟩

/-- The result of `fetch((0,0,0,conserved), 1, 1, 1, 1)` on `dbNbr`. -/
def fetchNbrRes : Arr :=
  match dbNbr.fetch ⟨0, 0, 0, .conserved⟩ 1 1 1 1 with
  | .ok a => a
  | .error _ => emptyArr

/-- Database with the coarse parent `arrSq` stored at `(0, 0, 0, conserved)`
and no level-1 patches (scenario S2). -/
def dbPar : Database := ⟨2, 2, hdrW, [(⟨0, 0, 0, .conserved⟩, arrSq)], none⟩

/-- Database with a stored all-2.0 patch (scenario S4). -/
def dbTwo : Database := ⟨2, 2, hdrW, [(⟨0, 0, 0, .conserved⟩, constArr 2 2 1 2)], none⟩

/-- Database with no patches. -/
def dbEmpty : Database := ⟨2, 2, hdrW, [], none⟩

/-- Database with a vertex-located patch stored at `(0, 0, 0, vert_coords)`. -/
def dbVert : Database := ⟨2, 2, hdrW, [(⟨0, 0, 0, .vert_coords⟩, constArr 3 3 2 1)], none⟩

/-- Database with a single patch at `(1, 0, 0, conserved)`. -/
def dbOff : Database := ⟨2, 2, hdrW, [(⟨1, 0, 0, .conserved⟩, constArr 2 2 1 3)], none⟩

/-- A `1 × 1 × 1` coarse array. -/
def arrHalf : Arr := ⟨1, 1, 1, fun _ _ _ => 5⟩

/-- Prolongation of `arrHalf` over block size 2. -/
def prolHalf : Arr :=
  match dbEmpty.prolongation arrHalf with
  | .ok a => a
  | .error _ => emptyArr

/-- Restriction of `prolHalf`. -/
def restProlHalf : Arr :=
  match Database.restriction prolHalf with
  | .ok a => a
  | .error _ => emptyArr

/-- Value of an all-digit character run folded onto an accumulator. -/
def digitsVal (acc : ℕ) (xs : List Char) : ℕ :=
  xs.foldl (fun a c => a * 10 + (c.toNat - 48)) acc

/-- The first character, when present, is not a decimal digit. -/
def headNonDigit : List Char → Prop
  | [] => True
  | c :: _ => c.isDigit = false

/-! Basic lemmas about the array model. -/

theorem exc_bind_ok {α β : Type} (a : α) (f : α → Except Err β) :
    (Except.ok a >>= f) = f a := rfl

theorem exc_bind_err {α β : Type} (e : Err) (f : α → Except Err β) :
    ((Except.error e : Except Err α) >>= f) = Except.error e := rfl

theorem exc_pure {α : Type} (a : α) : (pure a : Except Err α) = Except.ok a := rfl

theorem Slice.ok_iff {a b : ℤ} {st : ℕ} {n : ℕ} :
    Slice.ok ⟨a, b, st⟩ n ↔ 0 ≤ a ∧ a ≤ b ∧ b ≤ (n : ℤ) ∧ 1 ≤ st := Iff.rfl

theorem Slice.len1 {a b : ℤ} : Slice.len ⟨a, b, 1⟩ = (b - a).toNat := by
  unfold Slice.len
  simp

theorem Slice.mem1 {a b : ℤ} {x : ℕ} :
    Slice.mem ⟨a, b, 1⟩ x ↔ a ≤ (x : ℤ) ∧ (x : ℤ) < b := by
  unfold Slice.mem
  simp [Int.emod_one]

theorem Slice.src1 {a b : ℤ} {x : ℕ} : Slice.src ⟨a, b, 1⟩ x = ((x : ℤ) - a).toNat := by
  unfold Slice.src
  simp

theorem Arr.select_eq_ok {a : Arr} {si sj : Slice} {r : Arr}
    (h : a.select si sj = .ok r) :
    si.ok a.ni ∧ sj.ok a.nj ∧
    r = ⟨si.len, sj.len, a.nk,
      fun x y k => a.data (si.start.toNat + si.step * x) (sj.start.toNat + sj.step * y) k⟩ := by
  unfold Arr.select at h
  split at h
  · rename_i hc
    injection h with h
    exact ⟨hc.1, hc.2, h.symm⟩
  · cases h

theorem Arr.select_ok_mk {a : Arr} {si sj : Slice}
    (h1 : si.ok a.ni) (h2 : sj.ok a.nj) :
    a.select si sj = .ok (selArr a si sj) := by
  unfold Arr.select
  rw [if_pos ⟨h1, h2⟩]

theorem Arr.assign_eq_ok {d : Arr} {si sj : Slice} {s r : Arr}
    (h : d.assign si sj s = .ok r) :
    si.ok d.ni ∧ sj.ok d.nj ∧ s.ni = si.len ∧ s.nj = sj.len ∧ s.nk = d.nk ∧
    r.ni = d.ni ∧ r.nj = d.nj ∧ r.nk = d.nk ∧
    ∀ x y k, r.data x y k =
      if si.mem x ∧ sj.mem y then s.data (si.src x) (sj.src y) k else d.data x y k := by
  unfold Arr.assign at h
  split at h
  · rename_i h1
    split at h
    · rename_i h2
      injection h with h
      subst h
      exact ⟨h1.1, h1.2, h2.1, h2.2.1, h2.2.2, rfl, rfl, rfl, fun _ _ _ => rfl⟩
    · cases h
  · cases h

theorem Arr.assign_ok_mk {d : Arr} {si sj : Slice} {s : Arr}
    (h1 : si.ok d.ni) (h2 : sj.ok d.nj)
    (h3 : s.ni = si.len) (h4 : s.nj = sj.len) (h5 : s.nk = d.nk) :
    d.assign si sj s = .ok (asgArr d si sj s) := by
  unfold Arr.assign
  rw [if_pos ⟨h1, h2⟩, if_pos ⟨h3, h4, h5⟩]

theorem Arr.add_eq_ok {a b r : Arr} (h : a.add b = .ok r) :
    b.ni = a.ni ∧ b.nj = a.nj ∧ b.nk = a.nk ∧
    r = ⟨a.ni, a.nj, a.nk, fun x y k => a.data x y k + b.data x y k⟩ := by
  unfold Arr.add at h
  split at h
  · rename_i hc
    injection h with h
    exact ⟨hc.1, hc.2.1, hc.2.2, h.symm⟩
  · cases h

theorem Arr.add_ok_mk {a b : Arr} (h1 : b.ni = a.ni) (h2 : b.nj = a.nj) (h3 : b.nk = a.nk) :
    a.add b = .ok (addArr a b) := by
  unfold Arr.add
  rw [if_pos ⟨h1, h2, h3⟩]

theorem Arr.assignFull_eq_ok {d s r : Arr} (h : d.assignFull s = .ok r) :
    s.ni = d.ni ∧ s.nj = d.nj ∧ s.nk = d.nk ∧ r = ⟨d.ni, d.nj, d.nk, s.data⟩ := by
  unfold Arr.assignFull at h
  split at h
  · rename_i hc
    injection h with h
    exact ⟨hc.1, hc.2.1, hc.2.2, h.symm⟩
  · cases h

theorem Database.edge_eq_ok {db : Database} {r center : Arr} {idx nIdx : Index}
    {eg : PatchBoundary} {depth : ℕ} {ssel : Arr → Slice × Slice} {di dj : Slice} {r' : Arr}
    (h : db.edge r center idx nIdx eg depth ssel di dj = .ok r') :
    (r'.ni = r.ni ∧ r'.nj = r.nj ∧ r'.nk = r.nk) ∧
    (∀ x y k, ¬(di.mem x ∧ dj.mem y) → r'.data x y k = r.data x y k) ∧
    (∀ nb, 0 < depth → db.locate nIdx = .ok (some nb) →
      di.ok r.ni ∧ dj.ok r.nj ∧
      ∃ bv, nb.select (ssel nb).1 (ssel nb).2 = .ok bv ∧
        bv.ni = di.len ∧ bv.nj = dj.len ∧ bv.nk = r.nk ∧
        ∀ x y k, di.mem x → dj.mem y →
          r'.data x y k = bv.data (di.src x) (dj.src y) k) := by
  unfold Database.edge at h
  split at h
  · cases hl : db.locate nIdx with
    | error e =>
      rw [hl] at h
      injection h
    | ok nbo =>
      rw [hl] at h
      cases nbo with
      | some nb =>
        simp only [] at h
        cases hs : nb.select (ssel nb).1 (ssel nb).2 with
        | error e =>
          rw [hs] at h
          injection h
        | ok bv =>
          rw [hs] at h
          simp only [] at h
          obtain ⟨hok1, hok2, h3, h4, h5, hn1, hn2, hn3, hdata⟩ := Arr.assign_eq_ok h
          refine ⟨⟨hn1, hn2, hn3⟩, ?_, ?_⟩
          · intro x y k hmem
            rw [hdata, if_neg hmem]
          · intro nb2 _ hl2
            injection hl2 with hl2
            injection hl2 with hl2
            subst hl2
            refine ⟨hok1, hok2, bv, hs, h3, h4, h5, ?_⟩
            intro x y k hx hy
            rw [hdata, if_pos ⟨hx, hy⟩]
      | none =>
        simp only [] at h
        cases hbv : db.boundary_value with
        | none =>
          rw [hbv] at h
          injection h
        | some bf =>
          rw [hbv] at h
          simp only [] at h
          obtain ⟨hok1, hok2, h3, h4, h5, hn1, hn2, hn3, hdata⟩ := Arr.assign_eq_ok h
          refine ⟨⟨hn1, hn2, hn3⟩, ?_, ?_⟩
          · intro x y k hmem
            rw [hdata, if_neg hmem]
          · intro nb2 _ hl2
            simp at hl2
  · rename_i hd
    injection h with h
    subst h
    refine ⟨⟨rfl, rfl, rfl⟩, fun _ _ _ _ => rfl, ?_⟩
    intro nb hdp _
    exact absurd hdp hd

theorem Slice.len_add {a : ℤ} {n : ℕ} : Slice.len ⟨a, a + n, 1⟩ = n := by
  rw [Slice.len1]
  omega

theorem Arr.data_congr (a : Arr) {x1 x2 y1 y2 : ℕ} (k : ℕ) (hx : x1 = x2) (hy : y1 = y2) :
    a.data x1 y1 k = a.data x2 y2 k := by
  rw [hx, hy]

theorem Database.fetch_eq_ok {db : Database} {idx : Index} {ngil ngir ngjl ngjr : ℕ}
    {res : Arr} (h : db.fetch idx ngil ngir ngjl ngjr = .ok res) :
    ∃ fd center, db.header idx.field = some fd ∧ fd.location = .cell ∧
      pl db.patches idx = some center ∧
      center.ni = db.ni ∧ center.nj = db.nj ∧ center.nk = fd.num_fields ∧
      res.ni = db.ni + ngil + ngir ∧ res.nj = db.nj + ngjl + ngjr ∧ res.nk = fd.num_fields ∧
      (∀ x y k, x < db.ni → y < db.nj →
        res.data (ngil + x) (ngjl + y) k = center.data x y k) ∧
      (∀ nb, 0 < ngil → db.locate ⟨idx.i - 1, idx.j, idx.level, idx.field⟩ = .ok (some nb) →
        ngil ≤ db.ni ∧ nb.nj = db.nj ∧
        ∀ x y k, x < ngil → y < db.nj →
          res.data x (ngjl + y) k = nb.data (db.ni - ngil + x) y k) ∧
      (∀ nb, 0 < ngir → db.locate ⟨idx.i + 1, idx.j, idx.level, idx.field⟩ = .ok (some nb) →
        nb.nj = db.nj ∧
        ∀ x y k, x < ngir → y < db.nj →
          res.data (db.ni + ngil + x) (ngjl + y) k = nb.data x y k) ∧
      (∀ nb, 0 < ngjl → db.locate ⟨idx.i, idx.j - 1, idx.level, idx.field⟩ = .ok (some nb) →
        ngjl ≤ db.nj ∧ nb.ni = db.ni ∧
        ∀ x y k, x < db.ni → y < ngjl →
          res.data (ngil + x) y k = nb.data x (db.nj - ngjl + y) k) ∧
      (∀ nb, 0 < ngjr → db.locate ⟨idx.i, idx.j + 1, idx.level, idx.field⟩ = .ok (some nb) →
        nb.ni = db.ni ∧
        ∀ x y k, x < db.ni → y < ngjr →
          res.data (ngil + x) (db.nj + ngjl + y) k = nb.data x y k) := by
  unfold Database.fetch at h
  cases hh : db.header idx.field with
  | none =>
    rw [hh] at h
    injection h
  | some fd =>
    rw [hh] at h
    simp only [] at h
    by_cases hloc : fd.location = MeshLocation.cell
    · rw [if_neg (not_not_intro hloc)] at h
      cases hc : pl db.patches idx with
      | none =>
        rw [hc] at h
        injection h
      | some center =>
        rw [hc] at h
        simp only [] at h
        cases h1 : Arr.assign ⟨db.ni + ngil + ngir, db.nj + ngjl + ngjr, fd.num_fields,
            fun _ _ _ => 0⟩ ⟨ngil, ngil + db.ni, 1⟩ ⟨ngjl, ngjl + db.nj, 1⟩ center with
        | error e =>
          rw [h1] at h
          injection h
        | ok r1 =>
          rw [h1] at h
          simp only [exc_bind_ok] at h
          cases h2 : db.edge r1 center idx ⟨idx.i - 1, idx.j, idx.level, idx.field⟩ .il ngil
              (fun nb => (⟨(db.ni : ℤ) - ngil, db.ni, 1⟩, ⟨0, nb.nj, 1⟩))
              ⟨0, ngil, 1⟩ ⟨ngjl, ngjl + db.nj, 1⟩ with
          | error e =>
            rw [h2] at h
            injection h
          | ok r2 =>
            rw [h2] at h
            simp only [exc_bind_ok] at h
            cases h3 : db.edge r2 center idx ⟨idx.i + 1, idx.j, idx.level, idx.field⟩ .ir ngir
                (fun nb => (⟨0, ngir, 1⟩, ⟨0, nb.nj, 1⟩))
                ⟨(db.ni : ℤ) + ngil, db.ni + ngil + ngir, 1⟩ ⟨ngjl, ngjl + db.nj, 1⟩ with
            | error e =>
              rw [h3] at h
              injection h
            | ok r3 =>
              rw [h3] at h
              simp only [exc_bind_ok] at h
              cases h4 : db.edge r3 center idx ⟨idx.i, idx.j - 1, idx.level, idx.field⟩ .jl ngjl
                  (fun nb => (⟨0, nb.ni, 1⟩, ⟨(db.nj : ℤ) - ngjl, db.nj, 1⟩))
                  ⟨ngil, ngil + db.ni, 1⟩ ⟨0, ngjl, 1⟩ with
              | error e =>
                rw [h4] at h
                injection h
              | ok r4 =>
                rw [h4] at h
                simp only [exc_bind_ok] at h
                cases h5 : db.edge r4 center idx ⟨idx.i, idx.j + 1, idx.level, idx.field⟩ .jr ngjr
                    (fun nb => (⟨0, nb.ni, 1⟩, ⟨0, ngjr, 1⟩))
                    ⟨ngil, ngil + db.ni, 1⟩ ⟨(db.nj : ℤ) + ngjl, db.nj + ngjl + ngjr, 1⟩ with
                | error e =>
                  rw [h5] at h
                  injection h
                | ok r5 =>
                  rw [h5] at h
                  simp only [exc_bind_ok, exc_pure] at h
                  injection h with h
                  subst h
                  obtain ⟨_, _, hcni, hcnj, hcnk, hr1i, hr1j, hr1k, hd1⟩ := Arr.assign_eq_ok h1
                  obtain ⟨⟨h2i, h2j, h2k⟩, h2miss, h2hit⟩ := Database.edge_eq_ok h2
                  obtain ⟨⟨h3i, h3j, h3k⟩, h3miss, h3hit⟩ := Database.edge_eq_ok h3
                  obtain ⟨⟨h4i, h4j, h4k⟩, h4miss, h4hit⟩ := Database.edge_eq_ok h4
                  obtain ⟨⟨h5i, h5j, h5k⟩, h5miss, h5hit⟩ := Database.edge_eq_ok h5
                  have hcni2 : center.ni = db.ni := by
                    rw [hcni, Slice.len_add]
                  have hcnj2 : center.nj = db.nj := by
                    rw [hcnj, Slice.len_add]
                  have hresi : r5.ni = db.ni + ngil + ngir := by
                    rw [h5i, h4i, h3i, h2i, hr1i]
                  have hresj : r5.nj = db.nj + ngjl + ngjr := by
                    rw [h5j, h4j, h3j, h2j, hr1j]
                  have hresk : r5.nk = fd.num_fields := by
                    rw [h5k, h4k, h3k, h2k, hr1k]
                  refine ⟨fd, center, rfl, hloc, rfl, hcni2, hcnj2, hcnk, hresi, hresj, hresk,
                    ?_, ?_, ?_, ?_, ?_⟩
                  · -- interior
                    intro x y k hx hy
                    rw [h5miss _ _ _ (by rw [Slice.mem1, Slice.mem1]; omega),
                        h4miss _ _ _ (by rw [Slice.mem1, Slice.mem1]; omega),
                        h3miss _ _ _ (by rw [Slice.mem1, Slice.mem1]; omega),
                        h2miss _ _ _ (by rw [Slice.mem1, Slice.mem1]; omega),
                        hd1, if_pos ⟨Slice.mem1.mpr (by omega), Slice.mem1.mpr (by omega)⟩]
                    simp only [Slice.src1]
                    exact Arr.data_congr center k (by omega) (by omega)
                  · -- il edge
                    intro nb hg hl
                    obtain ⟨_, _, bv, hsel, hbvi, hbvj, hbvk, hwrite⟩ := h2hit nb hg hl
                    obtain ⟨hsi, hsj, hbv⟩ := Arr.select_eq_ok hsel
                    have hnle : ngil ≤ db.ni := by
                      have := hsi.1
                      simp only at this
                      omega
                    have hnbj : nb.nj = db.nj := by
                      have hb1 : bv.nj = Slice.len ⟨(0 : ℤ), nb.nj, 1⟩ := by
                        rw [hbv]
                      have hb2 : bv.nj = Slice.len ⟨(ngjl : ℤ), (ngjl : ℤ) + db.nj, 1⟩ := hbvj
                      rw [Slice.len1] at hb1
                      rw [Slice.len_add] at hb2
                      omega
                    refine ⟨hnle, hnbj, ?_⟩
                    intro x y k hx hy
                    rw [h5miss _ _ _ (by rw [Slice.mem1, Slice.mem1]; omega),
                        h4miss _ _ _ (by rw [Slice.mem1, Slice.mem1]; omega),
                        h3miss _ _ _ (by rw [Slice.mem1, Slice.mem1]; omega),
                        hwrite _ _ _ (Slice.mem1.mpr (by omega)) (Slice.mem1.mpr (by omega)),
                        hbv]
                    simp only [Slice.src1]
                    exact Arr.data_congr nb k (by omega) (by omega)
                  · -- ir edge
                    intro nb hg hl
                    obtain ⟨_, _, bv, hsel, hbvi, hbvj, hbvk, hwrite⟩ := h3hit nb hg hl
                    obtain ⟨hsi, hsj, hbv⟩ := Arr.select_eq_ok hsel
                    have hnbj : nb.nj = db.nj := by
                      have hb1 : bv.nj = Slice.len ⟨(0 : ℤ), nb.nj, 1⟩ := by
                        rw [hbv]
                      have hb2 : bv.nj = Slice.len ⟨(ngjl : ℤ), (ngjl : ℤ) + db.nj, 1⟩ := hbvj
                      rw [Slice.len1] at hb1
                      rw [Slice.len_add] at hb2
                      omega
                    refine ⟨hnbj, ?_⟩
                    intro x y k hx hy
                    rw [h5miss _ _ _ (by rw [Slice.mem1, Slice.mem1]; omega),
                        h4miss _ _ _ (by rw [Slice.mem1, Slice.mem1]; omega),
                        hwrite _ _ _ (Slice.mem1.mpr (by omega)) (Slice.mem1.mpr (by omega)),
                        hbv]
                    simp only [Slice.src1]
                    exact Arr.data_congr nb k (by omega) (by omega)
                  · -- jl edge
                    intro nb hg hl
                    obtain ⟨_, _, bv, hsel, hbvi, hbvj, hbvk, hwrite⟩ := h4hit nb hg hl
                    obtain ⟨hsi, hsj, hbv⟩ := Arr.select_eq_ok hsel
                    have hnle : ngjl ≤ db.nj := by
                      have := hsj.1
                      simp only at this
                      omega
                    have hnbi : nb.ni = db.ni := by
                      have hb1 : bv.ni = Slice.len ⟨(0 : ℤ), nb.ni, 1⟩ := by
                        rw [hbv]
                      have hb2 : bv.ni = Slice.len ⟨(ngil : ℤ), (ngil : ℤ) + db.ni, 1⟩ := hbvi
                      rw [Slice.len1] at hb1
                      rw [Slice.len_add] at hb2
                      omega
                    refine ⟨hnle, hnbi, ?_⟩
                    intro x y k hx hy
                    rw [h5miss _ _ _ (by rw [Slice.mem1, Slice.mem1]; omega),
                        hwrite _ _ _ (Slice.mem1.mpr (by omega)) (Slice.mem1.mpr (by omega)),
                        hbv]
                    simp only [Slice.src1]
                    exact Arr.data_congr nb k (by omega) (by omega)
                  · -- jr edge
                    intro nb hg hl
                    obtain ⟨_, _, bv, hsel, hbvi, hbvj, hbvk, hwrite⟩ := h5hit nb hg hl
                    obtain ⟨hsi, hsj, hbv⟩ := Arr.select_eq_ok hsel
                    have hnbi : nb.ni = db.ni := by
                      have hb1 : bv.ni = Slice.len ⟨(0 : ℤ), nb.ni, 1⟩ := by
                        rw [hbv]
                      have hb2 : bv.ni = Slice.len ⟨(ngil : ℤ), (ngil : ℤ) + db.ni, 1⟩ := hbvi
                      rw [Slice.len1] at hb1
                      rw [Slice.len_add] at hb2
                      omega
                    refine ⟨hnbi, ?_⟩
                    intro x y k hx hy
                    rw [hwrite _ _ _ (Slice.mem1.mpr (by omega)) (Slice.mem1.mpr (by omega)),
                        hbv]
                    simp only [Slice.src1]
                    exact Arr.data_congr nb k (by omega) (by omega)
    · rw [if_pos hloc] at h
      injection h

theorem Database.edge_zero (db : Database) (r center : Arr) (idx nIdx : Index)
    (eg : PatchBoundary) (ssel : Arr → Slice × Slice) (di dj : Slice) :
    db.edge r center idx nIdx eg 0 ssel di dj = .ok r := by
  unfold Database.edge
  rw [if_neg (lt_irrefl 0)]

theorem Database.fetch_zero_ok {db : Database} {idx : Index} {fd : FieldDescriptor}
    (hh : db.header idx.field = some fd) (hloc : fd.location = .cell)
    {center : Arr} (hc : pl db.patches idx = some center)
    (hcni : center.ni = db.ni) (hcnj : center.nj = db.nj) (hcnk : center.nk = fd.num_fields) :
    okB (db.fetch idx 0 0 0 0) = true := by
  unfold Database.fetch
  rw [hh]
  simp only []
  rw [if_neg (not_not_intro hloc), hc]
  simp only []
  rw [Arr.assign_ok_mk (by rw [Slice.ok_iff]; (try dsimp only []); omega)
    (by rw [Slice.ok_iff]; (try dsimp only []); omega)
    (by rw [Slice.len1]; omega) (by rw [Slice.len1]; omega) hcnk]
  simp only [exc_bind_ok, Database.edge_zero, exc_pure]
  rfl

/-- C1: for a stored cell-located index, every successful
`fetch(index, ngil, ngir, ngjl, ngjr)` has shape
`(ni + ngil + ngir, nj + ngjl + ngjr, K)` and its interior region
`[ngil : ngil + ni, ngjl : ngjl + nj, :]` equals the stored patch elementwise,
and `fetch(index, 0)` succeeds and equals `at(index)` elementwise with shape
`(ni, nj, K)`. -/
theorem C1_fetch_shape_interior (db : Database) (idx : Index) (fd : FieldDescriptor)
    (hh : db.header idx.field = some fd) (hloc : fd.location = .cell)
    (center : Arr) (hc : pl db.patches idx = some center)
    (hcni : center.ni = db.ni) (hcnj : center.nj = db.nj) (hcnk : center.nk = fd.num_fields) :
    (∀ ngil ngir ngjl ngjr res, db.fetch idx ngil ngir ngjl ngjr = .ok res →
      res.ni = db.ni + ngil + ngir ∧ res.nj = db.nj + ngjl + ngjr ∧
      res.nk = fd.num_fields ∧
      ∀ x y k, x < db.ni → y < db.nj →
        res.data (ngil + x) (ngjl + y) k = center.data x y k) ∧
    okB (db.fetch1 idx 0) = true ∧
    ∀ res, db.fetch1 idx 0 = .ok res → res.eqv center := by
  refine ⟨?_, ?_, ?_⟩
  · intro ngil ngir ngjl ngjr res h
    obtain ⟨fd2, c2, hh2, _, hc2, _, _, _, hri, hrj, hrk, hint, _⟩ := Database.fetch_eq_ok h
    rw [hh] at hh2
    injection hh2 with hh2
    rw [hc] at hc2
    injection hc2 with hc2
    subst hh2
    subst hc2
    exact ⟨hri, hrj, hrk, hint⟩
  · exact Database.fetch_zero_ok hh hloc hc hcni hcnj hcnk
  · intro res h
    obtain ⟨fd2, c2, hh2, _, hc2, _, _, _, hri, hrj, hrk, hint, _⟩ := Database.fetch_eq_ok h
    rw [hh] at hh2
    injection hh2 with hh2
    rw [hc] at hc2
    injection hc2 with hc2
    subst hh2
    subst hc2
    refine ⟨by omega, by omega, by rw [hrk, hcnk], ?_⟩
    intro x hx y hy k hk
    have := hint x y k (by omega) (by omega)
    simpa using this

/-- C1 witness: on a 2-by-2 single-patch database, `fetch(index, 0)` succeeds
and its result equals the stored patch elementwise. -/
theorem C1_fetch_shape_interior_witness :
    okB (dbOne.fetch1 ⟨0, 0, 0, .conserved⟩ 0) = true ∧ fetchZeroRes.eqv arrSq := by
  have h := C1_fetch_shape_interior dbOne ⟨0, 0, 0, .conserved⟩ ⟨1, .cell⟩ rfl rfl
    arrSq rfl rfl rfl rfl
  exact ⟨h.2.1, h.2.2 fetchZeroRes rfl⟩

/-- C2: when a guard depth is positive and `locate` on the same-level neighbor
returns a non-empty array, `fetch` fills that edge's guard slab with the
specified slice of the located neighbor: for `il` the neighbor slice
`[ni - ngil : ni, :, :]` lands at `[0 : ngil, ngjl : ngjl + nj, :]`, and
symmetrically for `ir`, `jl`, `jr`. -/
theorem C2_fetch_edge_slabs (db : Database) (idx : Index) (ngil ngir ngjl ngjr : ℕ)
    (res : Arr) (h : db.fetch idx ngil ngir ngjl ngjr = .ok res) :
    (∀ nb, 0 < ngil → db.locate ⟨idx.i - 1, idx.j, idx.level, idx.field⟩ = .ok (some nb) →
      ngil ≤ db.ni ∧ nb.nj = db.nj ∧
      ∀ x y k, x < ngil → y < db.nj →
        res.data x (ngjl + y) k = nb.data (db.ni - ngil + x) y k) ∧
    (∀ nb, 0 < ngir → db.locate ⟨idx.i + 1, idx.j, idx.level, idx.field⟩ = .ok (some nb) →
      nb.nj = db.nj ∧
      ∀ x y k, x < ngir → y < db.nj →
        res.data (db.ni + ngil + x) (ngjl + y) k = nb.data x y k) ∧
    (∀ nb, 0 < ngjl → db.locate ⟨idx.i, idx.j - 1, idx.level, idx.field⟩ = .ok (some nb) →
      ngjl ≤ db.nj ∧ nb.ni = db.ni ∧
      ∀ x y k, x < db.ni → y < ngjl →
        res.data (ngil + x) y k = nb.data x (db.nj - ngjl + y) k) ∧
    (∀ nb, 0 < ngjr → db.locate ⟨idx.i, idx.j + 1, idx.level, idx.field⟩ = .ok (some nb) →
      nb.ni = db.ni ∧
      ∀ x y k, x < db.ni → y < ngjr →
        res.data (ngil + x) (db.nj + ngjl + y) k = nb.data x y k) := by
  obtain ⟨fd2, c2, _, _, _, _, _, _, _, _, _, _, hil, hir, hjl, hjr⟩ := Database.fetch_eq_ok h
  exact ⟨hil, hir, hjl, hjr⟩

/-- C2 witness: on a database with the center and all four same-level
neighbors stored, `fetch((0,0,0,conserved), 1, 1, 1, 1)` pulls each guard slab
from the corresponding neighbor (values 1, 2, 3, 4). -/
theorem C2_fetch_edge_slabs_witness :
    dbNbr.fetch ⟨0, 0, 0, .conserved⟩ 1 1 1 1 = .ok fetchNbrRes ∧
    fetchNbrRes.data 0 1 0 = 1 ∧ fetchNbrRes.data 3 1 0 = 2 ∧
    fetchNbrRes.data 1 0 0 = 3 ∧ fetchNbrRes.data 1 3 0 = 4 := by
  have h := C2_fetch_edge_slabs dbNbr ⟨0, 0, 0, .conserved⟩ 1 1 1 1 fetchNbrRes rfl
  refine ⟨rfl, ?_, ?_, ?_, ?_⟩
  · have hx := (h.1 (constArr 2 2 1 1) (by decide) rfl).2.2 0 0 0 (by decide) (by decide)
    simpa using hx
  · have hx := (h.2.1 (constArr 2 2 1 2) (by decide) rfl).2 0 0 0 (by decide) (by decide)
    simpa using hx
  · have hx := (h.2.2.1 (constArr 2 2 1 3) (by decide) rfl).2.2 0 0 0 (by decide) (by decide)
    simpa using hx
  · have hx := (h.2.2.2 (constArr 2 2 1 4) (by decide) rfl).2 0 0 0 (by decide) (by decide)
    simpa using hx

theorem Database.prolongation_spec {db : Database} {A : Arr}
    (h2i : db.ni % 2 = 0) (h2j : db.nj % 2 = 0) (hpi : 0 < db.ni) (hpj : 0 < db.nj)
    (hAi : A.ni = db.ni / 2) (hAj : A.nj = db.nj / 2) :
    ∃ p, db.prolongation A = .ok p ∧ p.ni = db.ni ∧ p.nj = db.nj ∧ p.nk = A.nk ∧
      ∀ x y k, x < db.ni → y < db.nj → p.data x y k = A.data (x / 2) (y / 2) k := by
  have e1 := @Arr.assign_ok_mk (⟨db.ni, db.nj, A.nk, fun _ _ _ => 0⟩ : Arr)
    ⟨0, db.ni, 2⟩ ⟨0, db.nj, 2⟩ A
    (by rw [Slice.ok_iff]; (try dsimp only []); omega)
    (by rw [Slice.ok_iff]; (try dsimp only []); omega)
    (by unfold Slice.len; (try dsimp only []); omega) (by unfold Slice.len; (try dsimp only []); omega) rfl
  have e2 := @Arr.assign_ok_mk
    (asgArr (⟨db.ni, db.nj, A.nk, fun _ _ _ => 0⟩ : Arr) ⟨0, db.ni, 2⟩ ⟨0, db.nj, 2⟩ A)
    ⟨0, db.ni, 2⟩ ⟨1, db.nj, 2⟩ A
    (by rw [Slice.ok_iff]; (try dsimp only [asgArr]); omega)
    (by rw [Slice.ok_iff]; (try dsimp only [asgArr]); omega)
    (by unfold Slice.len; (try dsimp only []); omega) (by unfold Slice.len; (try dsimp only []); omega) rfl
  have e3 := @Arr.assign_ok_mk
    (asgArr (asgArr (⟨db.ni, db.nj, A.nk, fun _ _ _ => 0⟩ : Arr)
      ⟨0, db.ni, 2⟩ ⟨0, db.nj, 2⟩ A) ⟨0, db.ni, 2⟩ ⟨1, db.nj, 2⟩ A)
    ⟨1, db.ni, 2⟩ ⟨0, db.nj, 2⟩ A
    (by rw [Slice.ok_iff]; (try dsimp only [asgArr]); omega)
    (by rw [Slice.ok_iff]; (try dsimp only [asgArr]); omega)
    (by unfold Slice.len; (try dsimp only []); omega) (by unfold Slice.len; (try dsimp only []); omega) rfl
  have e4 := @Arr.assign_ok_mk
    (asgArr (asgArr (asgArr (⟨db.ni, db.nj, A.nk, fun _ _ _ => 0⟩ : Arr)
      ⟨0, db.ni, 2⟩ ⟨0, db.nj, 2⟩ A) ⟨0, db.ni, 2⟩ ⟨1, db.nj, 2⟩ A)
      ⟨1, db.ni, 2⟩ ⟨0, db.nj, 2⟩ A)
    ⟨1, db.ni, 2⟩ ⟨1, db.nj, 2⟩ A
    (by rw [Slice.ok_iff]; (try dsimp only [asgArr]); omega)
    (by rw [Slice.ok_iff]; (try dsimp only [asgArr]); omega)
    (by unfold Slice.len; (try dsimp only []); omega) (by unfold Slice.len; (try dsimp only []); omega) rfl
  unfold Database.prolongation
  rw [e1]
  simp only [exc_bind_ok]
  rw [e2]
  simp only [exc_bind_ok]
  rw [e3]
  simp only [exc_bind_ok]
  rw [e4]
  simp only [exc_bind_ok, exc_pure]
  refine ⟨_, rfl, rfl, rfl, rfl, ?_⟩
  intro x y k hx hy
  unfold asgArr Slice.mem Slice.src
  dsimp only []
  by_cases px : x % 2 = 0 <;> by_cases py : y % 2 = 0
  · rw [if_neg (by omega), if_neg (by omega), if_neg (by omega), if_pos (by omega)]
    exact Arr.data_congr A k (by omega) (by omega)
  · rw [if_neg (by omega), if_neg (by omega), if_pos (by omega)]
    exact Arr.data_congr A k (by omega) (by omega)
  · rw [if_neg (by omega), if_pos (by omega)]
    exact Arr.data_congr A k (by omega) (by omega)
  · rw [if_pos (by omega)]
    exact Arr.data_congr A k (by omega) (by omega)

theorem Database.restriction_spec {A : Arr}
    (h2i : A.ni % 2 = 0) (h2j : A.nj % 2 = 0) (hpi : 0 < A.ni) (hpj : 0 < A.nj) :
    ∃ r, Database.restriction A = .ok r ∧
      r.ni = A.ni / 2 ∧ r.nj = A.nj / 2 ∧ r.nk = A.nk ∧
      ∀ a b k, r.data a b k =
        (A.data (2 * a) (2 * b) k + A.data (2 * a) (1 + 2 * b) k +
         A.data (1 + 2 * a) (2 * b) k + A.data (1 + 2 * a) (1 + 2 * b) k) * (1 / 4) := by
  have s0 := @Arr.select_ok_mk A ⟨0, A.ni, 2⟩ ⟨0, A.nj, 2⟩
    (by rw [Slice.ok_iff]; omega) (by rw [Slice.ok_iff]; omega)
  have s1 := @Arr.select_ok_mk A ⟨0, A.ni, 2⟩ ⟨1, A.nj, 2⟩
    (by rw [Slice.ok_iff]; omega) (by rw [Slice.ok_iff]; omega)
  have s2 := @Arr.select_ok_mk A ⟨1, A.ni, 2⟩ ⟨0, A.nj, 2⟩
    (by rw [Slice.ok_iff]; omega) (by rw [Slice.ok_iff]; omega)
  have s3 := @Arr.select_ok_mk A ⟨1, A.ni, 2⟩ ⟨1, A.nj, 2⟩
    (by rw [Slice.ok_iff]; omega) (by rw [Slice.ok_iff]; omega)
  have a1 := @Arr.add_ok_mk (selArr A ⟨0, A.ni, 2⟩ ⟨0, A.nj, 2⟩)
    (selArr A ⟨0, A.ni, 2⟩ ⟨1, A.nj, 2⟩) rfl
    (by unfold selArr Slice.len; (try dsimp only []); omega) rfl
  have a2 := @Arr.add_ok_mk
    (addArr (selArr A ⟨0, A.ni, 2⟩ ⟨0, A.nj, 2⟩) (selArr A ⟨0, A.ni, 2⟩ ⟨1, A.nj, 2⟩))
    (selArr A ⟨1, A.ni, 2⟩ ⟨0, A.nj, 2⟩)
    (by unfold addArr selArr Slice.len; (try dsimp only []); omega) rfl rfl
  have a3 := @Arr.add_ok_mk
    (addArr (addArr (selArr A ⟨0, A.ni, 2⟩ ⟨0, A.nj, 2⟩) (selArr A ⟨0, A.ni, 2⟩ ⟨1, A.nj, 2⟩))
      (selArr A ⟨1, A.ni, 2⟩ ⟨0, A.nj, 2⟩))
    (selArr A ⟨1, A.ni, 2⟩ ⟨1, A.nj, 2⟩)
    (by unfold addArr selArr Slice.len; (try dsimp only []); (try omega))
    (by unfold addArr selArr Slice.len; (try dsimp only []); (try omega)) rfl
  unfold Database.restriction
  rw [s0]
  simp only [exc_bind_ok]
  rw [s1]
  simp only [exc_bind_ok]
  rw [s2]
  simp only [exc_bind_ok]
  rw [s3]
  simp only [exc_bind_ok]
  rw [a1]
  simp only [exc_bind_ok]
  rw [a2]
  simp only [exc_bind_ok]
  rw [a3]
  simp only [exc_bind_ok, exc_pure]
  refine ⟨_, rfl, ?_, ?_, rfl, ?_⟩
  · unfold Arr.smul addArr selArr Slice.len
    (try dsimp only [])
    omega
  · unfold Arr.smul addArr selArr Slice.len
    (try dsimp only [])
    omega
  · intro a b k
    unfold Arr.smul addArr selArr
    dsimp only []
    simp only [Int.toNat_zero, Int.toNat_one, zero_add]

theorem Database.restriction_prolongation {db : Database} {A : Arr}
    (h2i : db.ni % 2 = 0) (h2j : db.nj % 2 = 0) (hpi : 0 < db.ni) (hpj : 0 < db.nj)
    (hAi : A.ni = db.ni / 2) (hAj : A.nj = db.nj / 2) :
    ∃ p r, db.prolongation A = .ok p ∧ Database.restriction p = .ok r ∧ r.eqv A := by
  obtain ⟨p, hp, hpni, hpnj, hpnk, hpd⟩ :=
    Database.prolongation_spec h2i h2j hpi hpj hAi hAj
  obtain ⟨r, hr, hrni, hrnj, hrnk, hrd⟩ := Database.restriction_spec
    (by rw [hpni]; exact h2i) (by rw [hpnj]; exact h2j)
    (by rw [hpni]; exact hpi) (by rw [hpnj]; exact hpj)
  refine ⟨p, r, hp, hr, ?_, ?_, ?_, ?_⟩
  · rw [hrni, hpni]
    omega
  · rw [hrnj, hpnj]
    omega
  · rw [hrnk, hpnk]
  · intro a ha b hb k hk
    have hani : a < db.ni / 2 := by
      rw [hrni, hpni] at ha
      omega
    have hbnj : b < db.nj / 2 := by
      rw [hrnj, hpnj] at hb
      omega
    rw [hrd]
    rw [hpd (2 * a) (2 * b) k (by omega) (by omega),
        hpd (2 * a) (1 + 2 * b) k (by omega) (by omega),
        hpd (1 + 2 * a) (2 * b) k (by omega) (by omega),
        hpd (1 + 2 * a) (1 + 2 * b) k (by omega) (by omega)]
    rw [Arr.data_congr A k (show 2 * a / 2 = a by omega) (show 2 * b / 2 = b by omega),
        Arr.data_congr A k (show 2 * a / 2 = a by omega) (show (1 + 2 * b) / 2 = b by omega),
        Arr.data_congr A k (show (1 + 2 * a) / 2 = a by omega) (show 2 * b / 2 = b by omega),
        Arr.data_congr A k (show (1 + 2 * a) / 2 = a by omega)
          (show (1 + 2 * b) / 2 = b by omega)]
    ring

/-- C9: for every even block size and every cell array of shape
`(ni/2, nj/2, K)`, restriction of the prolongation succeeds and returns the
original array elementwise: piecewise-constant prolongation followed by
four-cell average restriction is a left inverse of prolongation. -/
theorem C9_restrict_prolong_id (db : Database) (A : Arr)
    (h2i : db.ni % 2 = 0) (h2j : db.nj % 2 = 0) (hpi : 0 < db.ni) (hpj : 0 < db.nj)
    (hAi : A.ni = db.ni / 2) (hAj : A.nj = db.nj / 2) :
    ∃ p r, db.prolongation A = .ok p ∧ Database.restriction p = .ok r ∧ r.eqv A :=
  Database.restriction_prolongation h2i h2j hpi hpj hAi hAj

/-- C9 witness: with block size 2 and the 1-by-1 array of fives, prolongation
followed by restriction returns the array unchanged. -/
theorem C9_restrict_prolong_id_witness :
    dbEmpty.prolongation arrHalf = .ok prolHalf ∧
    Database.restriction prolHalf = .ok restProlHalf ∧ restProlHalf.eqv arrHalf := by
  obtain ⟨p, r, hp, hr, he⟩ := C9_restrict_prolong_id dbEmpty arrHalf
    (by decide) (by decide) (by decide) (by decide) (by decide) (by decide)
  have hp2 : p = prolHalf := by
    have : Except.ok (ε := Err) p = .ok prolHalf := by
      rw [← hp]
      rfl
    injection this
  subst hp2
  have hr2 : r = restProlHalf := by
    have : Except.ok (ε := Err) r = .ok restProlHalf := by
      rw [← hr]
      rfl
    injection this
  subst hr2
  exact ⟨hp, hr, he⟩

/-- C7 (counterexample): the code's `coarsen` truncates toward zero, so
`coarsen(-1, -1, 1, f)` is `(0, 0, 0, f)`, not `(-1, -1, 0, f)` as the claim's
floored division would give. -/
theorem C7_coarsen_counterexample :
    coarsen ⟨-1, -1, 1, .conserved⟩ = ⟨0, 0, 0, .conserved⟩ ∧
    coarsen ⟨-1, -1, 1, .conserved⟩ ≠ ⟨-1, -1, 0, .conserved⟩ :=
  ⟨by decide, by decide⟩

/-- C7 (amended): `coarsen` uses C-style division truncated toward zero; for
non-negative `i` and `j` this agrees with floored division, giving
`(⌊i/2⌋, ⌊j/2⌋, level − 1, f)`. -/
theorem C7_coarsen_floored_on_nonneg (idx : Index) (hi : 0 ≤ idx.i) (hj : 0 ≤ idx.j) :
    coarsen idx = ⟨idx.i.fdiv 2, idx.j.fdiv 2, idx.level - 1, idx.field⟩ := by
  unfold coarsen
  rw [Int.tdiv_eq_ediv hi (by omega), Int.fdiv_eq_ediv idx.i (by omega),
    Int.tdiv_eq_ediv hj (by omega), Int.fdiv_eq_ediv idx.j (by omega)]

/-- C7 witness: `coarsen(5, 7, 3, conserved)` equals the floored-division
result `(2, 3, 2, conserved)`. -/
theorem C7_coarsen_floored_on_nonneg_witness :
    coarsen ⟨5, 7, 3, .conserved⟩ = ⟨(5 : ℤ).fdiv 2, (7 : ℤ).fdiv 2, 3 - 1, .conserved⟩ :=
  C7_coarsen_floored_on_nonneg ⟨5, 7, 3, .conserved⟩ (by decide) (by decide)

/-- C5: evidence of the insert bug: inserting a `(3, 2, 1)` array at a
cell-centered index with block size 2 raises `ShapeMismatch`, but the store is
NOT unchanged: `patches[index]` default-constructs a new entry (C++17
sequencing evaluates it before `check_shape` throws), so `size()` grows from 0
to 1 and an empty array sits at the index. -/
theorem C5_insert_error_store_changed :
    (dbEmpty.insert ⟨0, 0, 0, .conserved⟩ (constArr 3 2 1 0)).2 = some .shapeMismatch ∧
    dbEmpty.patches.length = 0 ∧
    (dbEmpty.insert ⟨0, 0, 0, .conserved⟩ (constArr 3 2 1 0)).1.patches.length = 1 ∧
    pl (dbEmpty.insert ⟨0, 0, 0, .conserved⟩ (constArr 3 2 1 0)).1.patches
      ⟨0, 0, 0, .conserved⟩ = some emptyArr :=
  ⟨rfl, rfl, rfl, rfl⟩

/-- C8: evidence of the assemble offset bug: with block size 2 and the patch
`(1, 0, 0, conserved)` stored, `assemble(1, 2, 0, 1, 0, conserved)` allocates
a `(2, 2, 1)` result but writes the patch at rows `[i·ni, (i+1)·ni) = [2, 4)`,
out of bounds of its own allocation, instead of at `(i − i0)·ni = 0`. -/
theorem C8_assemble_nonzero_origin_out_of_bounds :
    dbOff.assemble 1 2 0 1 0 .conserved = .error .outOfBounds := rfl

theorem pl_setp (l : List (Index × Arr)) (idx : Index) (a : Arr) :
    pl (setp l idx a) idx = some a := by
  induction l with
  | nil =>
    simp [setp, pl]
  | cons e rest ih =>
    unfold setp
    by_cases he : e.1 = idx
    · rw [if_pos he]
      unfold pl
      rw [if_pos rfl]
    · rw [if_neg he]
      unfold pl
      rw [if_neg he]
      exact ih

theorem Database.commit_char (db : Database) (idx : Index) (data : Arr) (rk : ℚ) :
    (pl db.patches idx = none → db.commit idx data rk = .error .patchMissing) ∧
    (∀ old, pl db.patches idx = some old →
      (¬(data.ni = old.ni ∧ data.nj = old.nj ∧ data.nk = old.nk) →
        db.commit idx data rk = .error .shapeMismatch) ∧
      ((data.ni = old.ni ∧ data.nj = old.nj ∧ data.nk = old.nk) →
        ∃ db2, db.commit idx data rk = .ok db2 ∧
          ∃ newA, pl db2.patches idx = some newA ∧
            newA.ni = old.ni ∧ newA.nj = old.nj ∧ newA.nk = old.nk ∧
            ∀ x y k, newA.data x y k =
              data.data x y k * (1 - rk) + old.data x y k * rk)) := by
  constructor
  · intro hp
    unfold Database.commit
    rw [hp]
  · intro old hp
    constructor
    · intro hsh
      unfold Database.commit
      rw [hp]
      simp only []
      by_cases hr : rk = 0
      · rw [if_pos hr]
        unfold Arr.assignFull
        rw [if_neg hsh]
        rfl
      · rw [if_neg hr]
        unfold Arr.smul Arr.add
        rw [if_neg (by
          dsimp only []
          exact fun hc => hsh ⟨hc.1.symm, hc.2.1.symm, hc.2.2.symm⟩)]
        rfl
    · intro hsh
      unfold Database.commit
      rw [hp]
      simp only []
      by_cases hr : rk = 0
      · rw [if_pos hr]
        unfold Arr.assignFull
        rw [if_pos hsh]
        simp only [exc_bind_ok, exc_pure]
        refine ⟨_, rfl, ⟨old.ni, old.nj, old.nk, data.data⟩, pl_setp _ _ _,
          rfl, rfl, rfl, ?_⟩
        intro x y k
        rw [hr]
        ring
      · rw [if_neg hr]
        unfold Arr.smul Arr.add
        rw [if_pos (by
          dsimp only []
          exact ⟨hsh.1.symm, hsh.2.1.symm, hsh.2.2.symm⟩)]
        simp only [exc_bind_ok]
        unfold addArr Arr.assignFull
        rw [if_pos (by dsimp only []; exact ⟨hsh.1, hsh.2.1, hsh.2.2⟩)]
        simp only [exc_bind_ok, exc_pure]
        refine ⟨_, rfl, _, pl_setp _ _ _, rfl, rfl, rfl, ?_⟩
        intro x y k
        rfl

/-- C4: for a stored index with conforming data, `commit(index, data, r)`
succeeds and the stored array becomes `data · (1 − r) + old · r` elementwise
(`r = 0` overwrites with `data`). -/
theorem C4_commit_blend (db : Database) (idx : Index) (data old : Arr) (rk : ℚ)
    (hp : pl db.patches idx = some old)
    (h1 : data.ni = old.ni) (h2 : data.nj = old.nj) (h3 : data.nk = old.nk) :
    ∃ db2, db.commit idx data rk = .ok db2 ∧
      ∃ newA, pl db2.patches idx = some newA ∧ newA.eqv (blendArr data old rk) := by
  obtain ⟨db2, hc, newA, hpf, e1, e2, e3, ev⟩ :=
    ((Database.commit_char db idx data rk).2 old hp).2 ⟨h1, h2, h3⟩
  refine ⟨db2, hc, newA, hpf, ?_, ?_, ?_, ?_⟩
  · exact e1
  · exact e2
  · exact e3
  · intro x _ y _ k _
    exact ev x y k

/-- C4 witness: with the stored patch all 2.0, committing all-8.0 data with
`rk_factor = 1/4` stores the value `8 · 0.75 + 2 · 0.25 = 6.5` everywhere. -/
theorem C4_commit_blend_witness :
    ∃ db2, dbTwo.commit ⟨0, 0, 0, .conserved⟩ (constArr 2 2 1 8) (1/4) = .ok db2 ∧
      ∃ newA, pl db2.patches ⟨0, 0, 0, .conserved⟩ = some newA ∧
        newA.eqv (constArr 2 2 1 (13/2)) := by
  obtain ⟨db2, hc, newA, hpf, he⟩ := C4_commit_blend dbTwo ⟨0, 0, 0, .conserved⟩
    (constArr 2 2 1 8) (constArr 2 2 1 2) (1/4) rfl rfl rfl rfl
  obtain ⟨e1, e2, e3, ev⟩ := he
  refine ⟨db2, hc, newA, hpf, e1, e2, e3, ?_⟩
  intro x hx y hy k hk
  rw [ev x hx y hy k hk]
  norm_num [blendArr, constArr]

/-- C6 (counterexample): `commit` performs no mesh-location check: committing
conforming data at a vertex-located stored index succeeds instead of failing
with `UnsupportedLocation`. -/
theorem C6_commit_no_location_check :
    okB (dbVert.commit ⟨0, 0, 0, .vert_coords⟩ (constArr 3 3 2 5) 0) = true := rfl

/-- C6 (amended): `commit` fails with `PatchMissing` when no patch is stored
at the index and fails with `ShapeMismatch` (raised by the array assignment)
when the data shape differs from the stored shape; it makes no mesh-location
check, and it mutates the store exactly when the patch exists and the shapes
agree. -/
theorem C6_commit_checks (db : Database) (idx : Index) (data : Arr) (rk : ℚ) :
    (pl db.patches idx = none → db.commit idx data rk = .error .patchMissing) ∧
    (∀ old, pl db.patches idx = some old →
      (¬(data.ni = old.ni ∧ data.nj = old.nj ∧ data.nk = old.nk) →
        db.commit idx data rk = .error .shapeMismatch) ∧
      ((data.ni = old.ni ∧ data.nj = old.nj ∧ data.nk = old.nk) →
        okB (db.commit idx data rk) = true)) := by
  obtain ⟨hmiss, hsome⟩ := Database.commit_char db idx data rk
  refine ⟨hmiss, ?_⟩
  intro old hp
  refine ⟨((hsome old hp).1), ?_⟩
  intro hsh
  obtain ⟨db2, hc, _⟩ := (hsome old hp).2 hsh
  rw [hc]
  rfl

/-- C6 witness: committing at an empty store fails with `PatchMissing`, and a
conforming commit at a vertex-located index succeeds (no location check). -/
theorem C6_commit_checks_witness :
    dbEmpty.commit ⟨0, 0, 0, .conserved⟩ (constArr 2 2 1 8) 0 = .error .patchMissing ∧
    okB (dbVert.commit ⟨0, 0, 0, .vert_coords⟩ (constArr 3 3 2 5) (1/2)) = true := by
  constructor
  · exact (C6_commit_checks dbEmpty ⟨0, 0, 0, .conserved⟩ (constArr 2 2 1 8) 0).1 rfl
  · exact ((C6_commit_checks dbVert ⟨0, 0, 0, .vert_coords⟩ (constArr 3 3 2 5) (1/2)).2
      (constArr 3 3 2 1) rfl).2 ⟨rfl, rfl, rfl⟩

theorem Database.quadrant_sel {db : Database} {A : Arr} {I J : ℤ}
    (hI : I = 0 ∨ I = 1) (hJ : J = 0 ∨ J = 1)
    (hni : db.ni ≤ A.ni) (hnj : db.nj ≤ A.nj)
    (h2i : db.ni % 2 = 0) (h2j : db.nj % 2 = 0) :
    ∃ q, db.quadrant A I J = .ok q ∧
      q.ni = db.ni / 2 ∧ q.nj = db.nj / 2 ∧ q.nk = A.nk ∧
      ∀ a b k, q.data a b k =
        A.data (I.toNat * (db.ni / 2) + a) (J.toNat * (db.nj / 2) + b) k := by
  unfold Database.quadrant
  rcases hI with hI | hI <;> rcases hJ with hJ | hJ <;> subst hI <;> subst hJ
  · rw [if_pos ⟨rfl, rfl⟩]
    refine ⟨_, Arr.select_ok_mk (by rw [Slice.ok_iff]; omega) (by rw [Slice.ok_iff]; omega),
      by unfold selArr Slice.len; (try dsimp only []); omega,
      by unfold selArr Slice.len; (try dsimp only []); omega, rfl, ?_⟩
    intro a b k
    unfold selArr
    dsimp only []
    exact Arr.data_congr A k (by simp only [Int.toNat_zero, Int.toNat_one]; omega)
      (by simp only [Int.toNat_zero, Int.toNat_one]; omega)
  · rw [if_neg (by omega), if_pos ⟨rfl, rfl⟩]
    refine ⟨_, Arr.select_ok_mk (by rw [Slice.ok_iff]; omega) (by rw [Slice.ok_iff]; omega),
      by unfold selArr Slice.len; (try dsimp only []); omega,
      by unfold selArr Slice.len; (try dsimp only []); omega, rfl, ?_⟩
    intro a b k
    unfold selArr
    dsimp only []
    exact Arr.data_congr A k (by simp only [Int.toNat_zero, Int.toNat_one]; omega)
      (by simp only [Int.toNat_zero, Int.toNat_one]; omega)
  · rw [if_neg (by omega), if_neg (by omega), if_pos ⟨rfl, rfl⟩]
    refine ⟨_, Arr.select_ok_mk (by rw [Slice.ok_iff]; omega) (by rw [Slice.ok_iff]; omega),
      by unfold selArr Slice.len; (try dsimp only []); omega,
      by unfold selArr Slice.len; (try dsimp only []); omega, rfl, ?_⟩
    intro a b k
    unfold selArr
    dsimp only []
    exact Arr.data_congr A k (by simp only [Int.toNat_zero, Int.toNat_one]; omega)
      (by simp only [Int.toNat_zero, Int.toNat_one]; omega)
  · rw [if_neg (by omega), if_neg (by omega), if_neg (by omega), if_pos ⟨rfl, rfl⟩]
    refine ⟨_, Arr.select_ok_mk (by rw [Slice.ok_iff]; omega) (by rw [Slice.ok_iff]; omega),
      by unfold selArr Slice.len; (try dsimp only []); omega,
      by unfold selArr Slice.len; (try dsimp only []); omega, rfl, ?_⟩
    intro a b k
    unfold selArr
    dsimp only []
    exact Arr.data_congr A k (by simp only [Int.toNat_zero, Int.toNat_one]; omega)
      (by simp only [Int.toNat_zero, Int.toNat_one]; omega)

/-- C3 (counterexample): with block size 2, the parent `(0, 0, 0, conserved)`
stored and no level-1 patches, `locate((-1, -1, 1, conserved))` throws from
`quadrant` (the C-style remainder `-1 % 2 = -1` is not a valid selector)
instead of returning a prolonged patch as the claim's Euclidean remainder
would. -/
theorem C3_locate_negative_counterexample :
    dbPar.locate ⟨-1, -1, 1, .conserved⟩ = .error .badQuadrant := rfl

/-- C3 (amended): for an index that is not stored but whose truncating-
division coarse parent is stored, with non-negative `i` and `j` (where the
C-style remainder `i % 2` coincides with the Euclidean remainder), `locate`
returns the prolongation of the `(i % 2, j % 2)` quadrant of the parent; for
negative odd `i` or `j` the remainder is `-1` and `quadrant` throws. -/
theorem C3_locate_coarse_parent (db : Database) (idx : Index) (parent : Arr)
    (h2i : db.ni % 2 = 0) (h2j : db.nj % 2 = 0) (hpi : 0 < db.ni) (hpj : 0 < db.nj)
    (hi : 0 ≤ idx.i) (hj : 0 ≤ idx.j)
    (hmiss : pl db.patches idx = none)
    (hpar : pl db.patches (coarsen idx) = some parent)
    (hparni : parent.ni = db.ni) (hparnj : parent.nj = db.nj) :
    ∃ q p, db.quadrant parent (idx.i.tmod 2) (idx.j.tmod 2) = .ok q ∧
      db.prolongation q = .ok p ∧ db.locate idx = .ok (some p) ∧
      p.ni = db.ni ∧ p.nj = db.nj ∧ p.nk = parent.nk ∧
      ∀ x y k, x < db.ni → y < db.nj →
        p.data x y k = parent.data ((idx.i.tmod 2).toNat * (db.ni / 2) + x / 2)
          ((idx.j.tmod 2).toNat * (db.nj / 2) + y / 2) k := by
  have hI : idx.i.tmod 2 = 0 ∨ idx.i.tmod 2 = 1 := by
    have ha := Int.tmod_nonneg 2 hi
    have hb := Int.tmod_lt_of_pos idx.i (show (0 : ℤ) < 2 by omega)
    omega
  have hJ : idx.j.tmod 2 = 0 ∨ idx.j.tmod 2 = 1 := by
    have ha := Int.tmod_nonneg 2 hj
    have hb := Int.tmod_lt_of_pos idx.j (show (0 : ℤ) < 2 by omega)
    omega
  obtain ⟨q, hq, hqni, hqnj, hqnk, hqd⟩ :=
    @Database.quadrant_sel db parent _ _ hI hJ (by omega) (by omega) h2i h2j
  obtain ⟨p, hp, hpni, hpnj, hpnk, hpd⟩ :=
    Database.prolongation_spec h2i h2j hpi hpj hqni hqnj
  refine ⟨q, p, hq, hp, ?_, hpni, hpnj, by rw [hpnk, hqnk], ?_⟩
  · unfold Database.locate
    rw [hmiss]
    simp only []
    rw [hpar]
    simp only []
    rw [hq]
    simp only [exc_bind_ok]
    rw [hp]
    simp only [exc_bind_ok, exc_pure]
  · intro x y k hx hy
    rw [hpd x y k hx hy, hqd]

/-- C3 witness: with the level-0 parent holding values `10a + b` and no
level-1 patches, `locate((1, 1, 1, conserved))` returns the prolongation of
the `(1, 1)` quadrant, an all-11 patch. -/
theorem C3_locate_coarse_parent_witness :
    ∃ q p, dbPar.quadrant arrSq ((1 : ℤ).tmod 2) ((1 : ℤ).tmod 2) = .ok q ∧
      dbPar.prolongation q = .ok p ∧ dbPar.locate ⟨1, 1, 1, .conserved⟩ = .ok (some p) ∧
      p.data 0 0 0 = 11 ∧ p.data 1 1 0 = 11 := by
  obtain ⟨q, p, hq, hp, hl, _, _, _, hd⟩ := C3_locate_coarse_parent dbPar
    ⟨1, 1, 1, .conserved⟩ arrSq rfl rfl (by decide) (by decide) (by decide) (by decide)
    rfl rfl rfl rfl
  refine ⟨q, p, hq, hp, hl, ?_, ?_⟩
  · have h0 := hd 0 0 0 (by decide) (by decide)
    rw [h0, Arr.data_congr arrSq 0 (show _ = 1 by decide) (show _ = 1 by decide)]
    norm_num [arrSq]
  · have h1 := hd 1 1 0 (by decide) (by decide)
    rw [h1, Arr.data_congr arrSq 0 (show _ = 1 by decide) (show _ = 1 by decide)]
    norm_num [arrSq]

theorem digChar_isDigit {n : ℕ} (h : n < 10) : (digChar n).isDigit = true := by
  interval_cases n <;> decide

theorem digChar_toNat {n : ℕ} (h : n < 10) : (digChar n).toNat = 48 + n := by
  interval_cases n <;> decide

theorem isDigit_ne {c : Char} (h : c.isDigit = true) :
    c ≠ '.' ∧ c ≠ '-' ∧ c ≠ '/' ∧ c ≠ '+' := by
  refine ⟨?_, ?_, ?_, ?_⟩ <;> intro he <;> rw [he] at h <;> exact absurd h (by decide)

theorem natCharsF_eq (n : ℕ) : ∀ f, n < f → natCharsF f n = natChars n := by
  induction n using Nat.strong_induction_on with
  | _ n ih =>
    intro f hf
    match f with
    | f' + 1 =>
      unfold natChars natCharsF
      by_cases h10 : n < 10
      · rw [if_pos h10, if_pos h10]
      · rw [if_neg h10, if_neg h10]
        have hd1 : n / 10 < n := Nat.div_lt_self (by omega) (by omega)
        rw [ih (n / 10) hd1 f' (by omega), ih (n / 10) hd1 n (by omega)]

theorem natCharsF_succ (f n : ℕ) :
    natCharsF (f + 1) n =
      if n < 10 then [digChar n] else natCharsF f (n / 10) ++ [digChar (n % 10)] := rfl

theorem natChars_unfold (n : ℕ) :
    natChars n = if n < 10 then [digChar n] else natChars (n / 10) ++ [digChar (n % 10)] := by
  by_cases h10 : n < 10
  · rw [if_pos h10]
    show natCharsF (n + 1) n = _
    rw [natCharsF_succ, if_pos h10]
  · rw [if_neg h10]
    show natCharsF (n + 1) n = _
    rw [natCharsF_succ, if_neg h10,
      natCharsF_eq (n / 10) n (Nat.div_lt_self (by omega) (by omega))]

theorem natChars_all_digits (n : ℕ) : ∀ c ∈ natChars n, c.isDigit = true := by
  induction n using Nat.strong_induction_on with
  | _ n ih =>
    intro c hc
    rw [natChars_unfold] at hc
    by_cases h10 : n < 10
    · rw [if_pos h10] at hc
      simp only [List.mem_singleton] at hc
      rw [hc]
      exact digChar_isDigit h10
    · rw [if_neg h10] at hc
      rcases List.mem_append.mp hc with hc | hc
      · exact ih (n / 10) (Nat.div_lt_self (by omega) (by omega)) c hc
      · simp only [List.mem_singleton] at hc
        rw [hc]
        exact digChar_isDigit (by omega)

theorem natChars_ne_nil (n : ℕ) : natChars n ≠ [] := by
  rw [natChars_unfold]
  by_cases h10 : n < 10
  · rw [if_pos h10]
    simp
  · rw [if_neg h10]
    simp

theorem not_mem_natChars {c : Char} (h : c.isDigit = false) (n : ℕ) : c ∉ natChars n := by
  intro hc
  rw [natChars_all_digits n c hc] at h
  cases h

theorem digitsVal_append (acc : ℕ) (xs ys : List Char) :
    digitsVal acc (xs ++ ys) = digitsVal (digitsVal acc xs) ys := by
  unfold digitsVal
  rw [List.foldl_append]

theorem digitsVal_natChars (n : ℕ) :
    ∀ acc, digitsVal acc (natChars n) = acc * 10 ^ (natChars n).length + n := by
  induction n using Nat.strong_induction_on with
  | _ n ih =>
    intro acc
    rw [natChars_unfold]
    by_cases h10 : n < 10
    · rw [if_pos h10]
      unfold digitsVal
      simp only [List.foldl_cons, List.foldl_nil, List.length_singleton]
      rw [digChar_toNat h10, pow_one]
      omega
    · rw [if_neg h10]
      rw [digitsVal_append]
      have hd1 : n / 10 < n := Nat.div_lt_self (by omega) (by omega)
      rw [ih (n / 10) hd1 acc]
      unfold digitsVal
      simp only [List.foldl_cons, List.foldl_nil, List.length_append,
        List.length_singleton]
      rw [digChar_toNat (by omega), pow_succ]
      have hx : acc * (10 ^ (natChars (n / 10)).length * 10) =
          acc * 10 ^ (natChars (n / 10)).length * 10 := by
        ring
      rw [hx]
      have hmod := Nat.div_add_mod n 10
      omega

theorem digitsPrefixVal_cons (acc : ℕ) (c : Char) (l : List Char) :
    digitsPrefixVal acc (c :: l) =
      if c.isDigit = true then digitsPrefixVal (acc * 10 + (c.toNat - 48)) l else acc := rfl

theorem stoiNat_cons (c : Char) (cs : List Char) :
    stoiNat (c :: cs) =
      if c.isDigit = true then .ok (digitsPrefixVal 0 (c :: cs))
      else .error .parseError := rfl

theorem digitsPrefixVal_digits (xs : List Char) :
    ∀ acc rest, (∀ c ∈ xs, c.isDigit = true) →
      digitsPrefixVal acc (xs ++ rest) = digitsPrefixVal (digitsVal acc xs) rest := by
  induction xs with
  | nil =>
    intro acc rest _
    rfl
  | cons c cs ih =>
    intro acc rest hall
    have hc : c.isDigit = true := hall c (by simp)
    rw [List.cons_append, digitsPrefixVal_cons, if_pos hc,
      ih _ rest (fun d hd => hall d (by simp [hd]))]
    unfold digitsVal
    rw [List.foldl_cons]

theorem digitsPrefixVal_stop (v : ℕ) (rest : List Char) (h : headNonDigit rest) :
    digitsPrefixVal v rest = v := by
  cases rest with
  | nil => rfl
  | cons c cs =>
    unfold headNonDigit at h
    rw [digitsPrefixVal_cons, if_neg (by rw [h]; exact fun hc => nomatch hc)]

theorem stoiNat_natChars (n : ℕ) (rest : List Char) (h : headNonDigit rest) :
    stoiNat (natChars n ++ rest) = .ok n := by
  cases he : natChars n with
  | nil => exact absurd he (natChars_ne_nil n)
  | cons d ds =>
    have hd : d.isDigit = true := by
      apply natChars_all_digits n
      rw [he]
      simp
    rw [List.cons_append, stoiNat_cons, if_pos hd, ← List.cons_append, ← he]
    have hall := natChars_all_digits n
    rw [digitsPrefixVal_digits (natChars n) 0 rest hall, digitsPrefixVal_stop _ rest h,
      digitsVal_natChars n 0]
    simp

theorem stoiL_natChars (n : ℕ) (rest : List Char) (h : headNonDigit rest) :
    stoiL (natChars n ++ rest) = .ok (n : ℤ) := by
  cases he : natChars n with
  | nil => exact absurd he (natChars_ne_nil n)
  | cons d ds =>
    have hd : d.isDigit = true := by
      apply natChars_all_digits n
      rw [he]
      simp
    obtain ⟨_, hd2, _, hd3⟩ := isDigit_ne hd
    rw [List.cons_append]
    show stoiL (d :: (ds ++ rest)) = _
    unfold stoiL
    simp only []
    rw [if_neg hd2, if_neg hd3, ← List.cons_append, ← he, stoiNat_natChars n rest h]

theorem stoiL_intChars (j : ℤ) (rest : List Char) (h : headNonDigit rest) :
    stoiL (intChars j ++ rest) = .ok j := by
  unfold intChars
  by_cases hj : j < 0
  · rw [if_pos hj, List.cons_append]
    show stoiL ('-' :: (natChars j.natAbs ++ rest)) = _
    unfold stoiL
    simp only []
    simp only [if_true]
    rw [stoiNat_natChars j.natAbs rest h]
    simp only []
    have : -(j.natAbs : ℤ) = j := by omega
    rw [this]
  · rw [if_neg hj, stoiL_natChars j.toNat rest h]
    have : (j.toNat : ℤ) = j := by omega
    rw [this]

theorem posOf_cons (c x : Char) (xs : List Char) :
    posOf c (x :: xs) = if x = c then 0 else posOf c xs + 1 := rfl

theorem posOf_append_not_mem {c : Char} {xs : List Char} (h : c ∉ xs) (ys : List Char) :
    posOf c (xs ++ ys) = xs.length + posOf c ys := by
  induction xs with
  | nil => simp
  | cons x rest ih =>
    rw [List.cons_append, posOf_cons, if_neg (by intro he; exact h (by rw [he]; simp))]
    rw [ih (fun hm => h (by simp [hm]))]
    simp only [List.length_cons]
    omega

theorem posOf_cons_self (c : Char) (xs : List Char) : posOf c (c :: xs) = 0 := by
  rw [posOf_cons, if_pos rfl]

theorem posOf_cons_ne {c x : Char} (h : x ≠ c) (xs : List Char) :
    posOf c (x :: xs) = posOf c xs + 1 := by
  rw [posOf_cons, if_neg h]

theorem intChars_no_slash (j : ℤ) : '/' ∉ intChars j := by
  unfold intChars
  by_cases hj : j < 0
  · rw [if_pos hj]
    intro hm
    rcases List.mem_cons.mp hm with hm | hm
    · exact absurd hm (by decide)
    · exact not_mem_natChars (by decide) _ hm
  · rw [if_neg hj]
    exact not_mem_natChars (by decide) _

theorem parse_field_fieldChars (f : Field) : parse_field (fieldChars f) = .ok f := by
  cases f <;> rfl

theorem stoiL_natChars_nil (n : ℕ) : stoiL (natChars n) = .ok (n : ℤ) := by
  have h := stoiL_natChars n [] trivial
  rwa [List.append_nil] at h

/-- C10 (counterexample): the encoding of `(-3, 5, 0, conserved)` is
`0.-3-5/conserved`; `parse_index` finds the first `'-'` at the sign of `i`, so
`j` is parsed from the digits of `i` and the round trip returns
`(-3, 3, 0, conserved)` instead of the original index. -/
theorem C10_roundtrip_counterexample :
    parse_index (indexChars ⟨-3, 5, 0, .conserved⟩) = .ok ⟨-3, 3, 0, .conserved⟩ ∧
    (⟨-3, 3, 0, .conserved⟩ : Index) ≠ ⟨-3, 5, 0, .conserved⟩ :=
  ⟨rfl, by decide⟩

/-- C10 (amended): for every index with `i ≥ 0` and `level ≥ 0` (and `j` any
integer), `parse_index (to_string index)` returns the index unchanged; for
negative `i` the first `'-'` found is the sign of `i` and the round trip
fails. -/
theorem C10_parse_to_string (idx : Index) (hi : 0 ≤ idx.i) (hl : 0 ≤ idx.level) :
    parse_index (indexChars idx) = .ok idx := by
  have hLev : intChars idx.level = natChars idx.level.toNat := by
    unfold intChars
    rw [if_neg (by omega)]
  have hIc : intChars idx.i = natChars idx.i.toNat := by
    unfold intChars
    rw [if_neg (by omega)]
  unfold indexChars
  rw [hLev, hIc]
  have hdot : posOf '.' (natChars idx.level.toNat ++ '.' :: (natChars idx.i.toNat ++
      '-' :: (intChars idx.j ++ '/' :: fieldChars idx.field))) =
      (natChars idx.level.toNat).length := by
    rw [posOf_append_not_mem (not_mem_natChars (by decide) _), posOf_cons_self]
    omega
  have hdash : posOf '-' (natChars idx.level.toNat ++ '.' :: (natChars idx.i.toNat ++
      '-' :: (intChars idx.j ++ '/' :: fieldChars idx.field))) =
      (natChars idx.level.toNat).length + 1 + (natChars idx.i.toNat).length := by
    rw [posOf_append_not_mem (not_mem_natChars (by decide) _),
      posOf_cons_ne (by decide), posOf_append_not_mem (not_mem_natChars (by decide) _),
      posOf_cons_self]
    omega
  have hslash : posOf '/' (natChars idx.level.toNat ++ '.' :: (natChars idx.i.toNat ++
      '-' :: (intChars idx.j ++ '/' :: fieldChars idx.field))) =
      (natChars idx.level.toNat).length + 1 + (natChars idx.i.toNat).length + 1 +
        (intChars idx.j).length := by
    rw [posOf_append_not_mem (not_mem_natChars (by decide) _),
      posOf_cons_ne (by decide), posOf_append_not_mem (not_mem_natChars (by decide) _),
      posOf_cons_ne (by decide), posOf_append_not_mem (intChars_no_slash idx.j),
      posOf_cons_self]
    omega
  have e1 : List.take (natChars idx.level.toNat).length
      (natChars idx.level.toNat ++ '.' :: (natChars idx.i.toNat ++
        '-' :: (intChars idx.j ++ '/' :: fieldChars idx.field))) =
      natChars idx.level.toNat := List.take_left' rfl
  have eL : stoiL (natChars idx.level.toNat) = .ok idx.level := by
    rw [stoiL_natChars_nil, Int.toNat_of_nonneg hl]
  have e2 : List.drop ((natChars idx.level.toNat).length + 1)
      (natChars idx.level.toNat ++ '.' :: (natChars idx.i.toNat ++
        '-' :: (intChars idx.j ++ '/' :: fieldChars idx.field))) =
      natChars idx.i.toNat ++ '-' :: (intChars idx.j ++ '/' :: fieldChars idx.field) := by
    have hs : natChars idx.level.toNat ++ '.' :: (natChars idx.i.toNat ++
        '-' :: (intChars idx.j ++ '/' :: fieldChars idx.field)) =
        (natChars idx.level.toNat ++ ['.']) ++ (natChars idx.i.toNat ++
        '-' :: (intChars idx.j ++ '/' :: fieldChars idx.field)) := by
      simp
    rw [hs]
    exact List.drop_left' (by simp)
  have e3 : List.take ((natChars idx.level.toNat).length + 1 + (natChars idx.i.toNat).length)
      (natChars idx.i.toNat ++ '-' :: (intChars idx.j ++ '/' :: fieldChars idx.field)) =
      natChars idx.i.toNat ++ '-' :: List.take ((natChars idx.level.toNat).length)
        (intChars idx.j ++ '/' :: fieldChars idx.field) := by
    rw [List.take_append_eq_append_take, List.take_of_length_le (by omega)]
    congr 1
    have hn : (natChars idx.level.toNat).length + 1 + (natChars idx.i.toNat).length -
        (natChars idx.i.toNat).length = (natChars idx.level.toNat).length + 1 := by
      omega
    rw [hn]
    rfl
  have e4 : stoiL (natChars idx.i.toNat ++ '-' :: List.take
      ((natChars idx.level.toNat).length) (intChars idx.j ++ '/' :: fieldChars idx.field)) =
      .ok idx.i := by
    have hnd : headNonDigit ('-' :: List.take ((natChars idx.level.toNat).length)
        (intChars idx.j ++ '/' :: fieldChars idx.field)) := by
      show '-'.isDigit = false
      decide
    rw [stoiL_natChars _ _ hnd, Int.toNat_of_nonneg hi]
  have e5 : List.drop ((natChars idx.level.toNat).length + 1 +
      (natChars idx.i.toNat).length + 1)
      (natChars idx.level.toNat ++ '.' :: (natChars idx.i.toNat ++
        '-' :: (intChars idx.j ++ '/' :: fieldChars idx.field))) =
      intChars idx.j ++ '/' :: fieldChars idx.field := by
    have hs : natChars idx.level.toNat ++ '.' :: (natChars idx.i.toNat ++
        '-' :: (intChars idx.j ++ '/' :: fieldChars idx.field)) =
        (natChars idx.level.toNat ++ ['.'] ++ natChars idx.i.toNat ++ ['-']) ++
        (intChars idx.j ++ '/' :: fieldChars idx.field) := by
      simp
    rw [hs]
    refine List.drop_left' ?_
    simp
    omega
  have e6 : List.take ((natChars idx.level.toNat).length + 1 +
      (natChars idx.i.toNat).length + 1 + (intChars idx.j).length)
      (intChars idx.j ++ '/' :: fieldChars idx.field) =
      intChars idx.j ++ '/' :: List.take ((natChars idx.level.toNat).length +
        (natChars idx.i.toNat).length + 1) (fieldChars idx.field) := by
    rw [List.take_append_eq_append_take, List.take_of_length_le (by omega)]
    congr 1
    have hn : (natChars idx.level.toNat).length + 1 + (natChars idx.i.toNat).length + 1 +
        (intChars idx.j).length - (intChars idx.j).length =
        ((natChars idx.level.toNat).length + (natChars idx.i.toNat).length + 1) + 1 := by
      omega
    rw [hn]
    rfl
  have e7 : stoiL (intChars idx.j ++ '/' :: List.take ((natChars idx.level.toNat).length +
      (natChars idx.i.toNat).length + 1) (fieldChars idx.field)) = .ok idx.j := by
    have hnd : headNonDigit ('/' :: List.take ((natChars idx.level.toNat).length +
        (natChars idx.i.toNat).length + 1) (fieldChars idx.field)) := by
      show '/'.isDigit = false
      decide
    rw [stoiL_intChars _ _ hnd]
  have e8 : List.drop ((natChars idx.level.toNat).length + 1 +
      (natChars idx.i.toNat).length + 1 + (intChars idx.j).length + 1)
      (natChars idx.level.toNat ++ '.' :: (natChars idx.i.toNat ++
        '-' :: (intChars idx.j ++ '/' :: fieldChars idx.field))) =
      fieldChars idx.field := by
    have hs : natChars idx.level.toNat ++ '.' :: (natChars idx.i.toNat ++
        '-' :: (intChars idx.j ++ '/' :: fieldChars idx.field)) =
        (natChars idx.level.toNat ++ ['.'] ++ natChars idx.i.toNat ++ ['-'] ++
          intChars idx.j ++ ['/']) ++ fieldChars idx.field := by
      simp
    rw [hs]
    refine List.drop_left' ?_
    simp
    omega
  unfold parse_index
  simp only []
  rw [hdot, hdash, hslash, e1, eL]
  simp only [exc_bind_ok]
  rw [e2, e3, e4]
  simp only [exc_bind_ok]
  rw [e5, e6, e7]
  simp only [exc_bind_ok]
  rw [e8, parse_field_fieldChars]
  simp only [exc_bind_ok, exc_pure]

/-- C10 witness: the encoding of `(7, -12, 3, face_velocity_j)` parses back to
exactly that index. -/
theorem C10_parse_to_string_witness :
    parse_index (indexChars ⟨7, -12, 3, .face_velocity_j⟩) =
      .ok ⟨7, -12, 3, .face_velocity_j⟩ :=
  C10_parse_to_string ⟨7, -12, 3, .face_velocity_j⟩ (by decide) (by decide)

end Patches2d
